import Mathlib

set_option autoImplicit false

/-!
Verification of the `tinacms` CLI `init` command pipeline
(`packages/@tinacms/cli/src/cmds/init/index.ts`).

The filesystem is modelled as an association list from paths (segment
lists, relative to the process working directory) to entries; the file
operations from `fs-extra` used by the code (`pathExistsSync`,
`existsSync`, `mkdirpSync`, `writeFileSync`, `readFileSync`,
`outputFileSync`) are embedded as functions on that model, returning
`none` where the real call would throw.  JSON values are embedded with an
executable serializer matching `JSON.stringify(x, null, 2)` and an
executable parser for the subset of JSON the serializer emits.
-/

namespace TinaInit

/-- A filesystem path relative to the project base directory, as a list of
path segments. -/
abbrev Path := List String

/-- A filesystem entry: a regular file with its contents, or a directory. -/
inductive Entry
| file (contents : String) : Entry
| dir : Entry
deriving DecidableEq, Repr

/-- A filesystem: an association list from paths to entries.  A path is
present (as a file or directory) exactly when it has an entry. -/
abbrev FS := List (Path × Entry)

/-- Look up the entry at a path. -/
def FS.lookup : FS → Path → Option Entry
| [], _ => none
| (q, e) :: rest, p => if q = p then some e else FS.lookup rest p

/-- Set the entry at a path: replace it in place when present, append it
otherwise. -/
def FS.set : FS → Path → Entry → FS
| [], p, e => [(p, e)]
| (q, e0) :: rest, p, e => if q = p then (p, e) :: rest else (q, e0) :: FS.set rest p e

/-- Embeds `fs.pathExistsSync` / `fs.existsSync`: whether any entry exists
at the path. -/
def pathExists (fs : FS) (p : Path) : Bool := (FS.lookup fs p).isSome

/-- Whether the immediate parent of a path exists as a directory (the
project base directory itself always exists). -/
def parentOk (fs : FS) (p : Path) : Bool :=
  p.dropLast.isEmpty || FS.lookup fs p.dropLast == some Entry.dir

/-- Embeds `fs.writeFileSync`: overwrite or create the file at the path;
`none` models the thrown error when the parent directory is missing or the
path is a directory. -/
def writeFile (fs : FS) (p : Path) (c : String) : Option FS :=
  if parentOk fs p then
    match FS.lookup fs p with
    | some Entry.dir => none
    | _ => some (FS.set fs p (Entry.file c))
  else none

/-- Embeds `fs.readFileSync` (plus `.toString()`): the contents of the
file at the path; `none` models the thrown error when the path is missing
or is a directory. -/
def readFile (fs : FS) (p : Path) : Option String :=
  match FS.lookup fs p with
  | some (Entry.file c) => some c
  | _ => none

/-- Helper for `mkdirp`: create each missing directory along `rest`,
`done` being the already-ensured prefix. `none` models the thrown error
when a regular file occupies one of the directory positions. -/
def mkdirpAux : FS → Path → List String → Option FS
| fs, _, [] => some fs
| fs, done, d :: rest =>
  match FS.lookup fs (done ++ [d]) with
  | some Entry.dir => mkdirpAux fs (done ++ [d]) rest
  | some (Entry.file _) => none
  | none => mkdirpAux (FS.set fs (done ++ [d]) Entry.dir) (done ++ [d]) rest

/-- Embeds `fs.mkdirpSync`: recursively create the directory and its
missing ancestors. -/
def mkdirp (fs : FS) (p : Path) : Option FS := mkdirpAux fs [] p

/-- Embeds the fs-extra function `outputFileSync`: like `writeFileSync` but
the parent directories are created first. -/
def outputFile (fs : FS) (p : Path) (c : String) : Option FS :=
  match mkdirp fs p.dropLast with
  | some fs1 => writeFile fs1 p c
  | none => none

/-- All nonempty prefixes of a path (the chain of directories `mkdirp`
may create). -/
def nonemptyPrefixes : Path → List Path
| [] => []
| d :: rest => [d] :: (nonemptyPrefixes rest).map (fun q => d :: q)

/-- A JSON value, for the manifest (`package.json`) handling: strings,
booleans, null, arrays and objects with insertion-ordered fields. -/
inductive Json
| str (s : String) : Json
| bool (b : Bool) : Json
| null : Json
| arr (items : List Json) : Json
| obj (fields : List (String × Json)) : Json

/-- Escape one character for a JSON string literal (quote and backslash). -/
def escChar (c : Char) : List Char :=
  if c = '\x22' then ['\\', '\x22']
  else if c = '\\' then ['\\', '\\']
  else [c]

/-- Escape a character sequence for a JSON string literal. -/
def escStr : List Char → List Char
| [] => []
| c :: rest => escChar c ++ escStr rest

/-- The indentation emitted by `JSON.stringify(x, null, 2)` at nesting
depth `n`: two spaces per level. -/
def indentChars (n : Nat) : List Char := List.replicate (2 * n) ' '

mutual

/-- Embeds `JSON.stringify(x, null, 2)` on one value at nesting depth
`ind` (the indentation of the surrounding container). -/
def stringifyVal : Json → Nat → List Char
| Json.str s, _ => '\x22' :: (escStr s.data ++ ['\x22'])
| Json.bool true, _ => ['t', 'r', 'u', 'e']
| Json.bool false, _ => ['f', 'a', 'l', 's', 'e']
| Json.null, _ => ['n', 'u', 'l', 'l']
| Json.arr [], _ => ['[', ']']
| Json.arr (j :: rest), ind =>
    '[' :: '\n' :: (indentChars (ind + 1) ++ stringifyVal j (ind + 1) ++
      stringifyItems rest (ind + 1) ++ '\n' :: (indentChars ind ++ [']']))
| Json.obj [], _ => ['\x7b', '\x7d']
| Json.obj (f :: rest), ind =>
    '\x7b' :: '\n' :: (indentChars (ind + 1) ++ stringifyField f (ind + 1) ++
      stringifyFields rest (ind + 1) ++ '\n' :: (indentChars ind ++ ['\x7d']))

/-- Serialize the remaining items of a nonempty array, each preceded by a
comma, newline and indentation. -/
def stringifyItems : List Json → Nat → List Char
| [], _ => []
| j :: rest, ind =>
    ',' :: '\n' :: (indentChars ind ++ stringifyVal j ind ++ stringifyItems rest ind)

/-- Serialize one object field as `"key": value`. -/
def stringifyField : String × Json → Nat → List Char
| (k, v), ind => '\x22' :: (escStr k.data ++ '\x22' :: ':' :: ' ' :: stringifyVal v ind)

/-- Serialize the remaining fields of a nonempty object, each preceded by
a comma, newline and indentation. -/
def stringifyFields : List (String × Json) → Nat → List Char
| [], _ => []
| f :: rest, ind =>
    ',' :: '\n' :: (indentChars ind ++ stringifyField f ind ++ stringifyFields rest ind)

end

/-- Embeds `JSON.stringify(x, null, 2)`. -/
def stringifyJson (j : Json) : String := String.mk (stringifyVal j 0)

/-- Whether a character is JSON whitespace. -/
def isWs (c : Char) : Bool := c = ' ' || c = '\n' || c = '\t' || c = '\r'

/-- Skip leading JSON whitespace. -/
def skipWs : List Char → List Char
| [] => []
| c :: rest => if isWs c then skipWs rest else c :: rest

/-- Parse the body of a JSON string literal after the opening quote,
unescaping backslash escapes, up to the closing quote. -/
def parseStrAux : List Char → Option (List Char × List Char)
| [] => none
| c :: rest =>
  if c = '\x22' then some ([], rest)
  else if c = '\\' then
    match rest with
    | [] => none
    | c2 :: rest2 =>
      match parseStrAux rest2 with
      | some (s, r) => some (c2 :: s, r)
      | none => none
  else
    match parseStrAux rest with
    | some (s, r) => some (c :: s, r)
    | none => none

mutual

/-- Recursive-descent JSON value parser (a model of `JSON.parse` on the
subset of JSON the code reads and writes).  The fuel argument bounds the
nesting depth; each recursive call consumes one unit. -/
def parseVal : Nat → List Char → Option (Json × List Char)
| 0, _ => none
| fuel + 1, cs =>
  let t := skipWs cs
  if t.take 4 = ['n', 'u', 'l', 'l'] then some (Json.null, t.drop 4)
  else if t.take 4 = ['t', 'r', 'u', 'e'] then some (Json.bool true, t.drop 4)
  else if t.take 5 = ['f', 'a', 'l', 's', 'e'] then some (Json.bool false, t.drop 5)
  else if t.head? = some '\x22' then
    match parseStrAux t.tail with
    | some (s, r) => some (Json.str (String.mk s), r)
    | none => none
  else if t.head? = some '[' then
    let u := skipWs t.tail
    if u.head? = some ']' then some (Json.arr [], u.tail)
    else
      match parseVal fuel u with
      | some (j, r) =>
        match parseItems fuel r with
        | some (js, r2) => some (Json.arr (j :: js), r2)
        | none => none
      | none => none
  else if t.head? = some '\x7b' then
    let u := skipWs t.tail
    if u.head? = some '\x7d' then some (Json.obj [], u.tail)
    else
      match parseField fuel u with
      | some (f, r) =>
        match parseFields fuel r with
        | some (fl, r2) => some (Json.obj (f :: fl), r2)
        | none => none
      | none => none
  else none

/-- Parse the items of an array after the first one: a comma followed by a
value, repeatedly, then the closing bracket. -/
def parseItems : Nat → List Char → Option (List Json × List Char)
| 0, _ => none
| fuel + 1, cs =>
  let t := skipWs cs
  if t.head? = some ']' then some ([], t.tail)
  else if t.head? = some ',' then
    match parseVal fuel t.tail with
    | some (j, r) =>
      match parseItems fuel r with
      | some (js, r2) => some (j :: js, r2)
      | none => none
    | none => none
  else none

/-- Parse one object field: a string key, a colon, and a value. -/
def parseField : Nat → List Char → Option ((String × Json) × List Char)
| 0, _ => none
| fuel + 1, cs =>
  let t := skipWs cs
  if t.head? = some '\x22' then
    match parseStrAux t.tail with
    | some (k, r) =>
      let u := skipWs r
      if u.head? = some ':' then
        match parseVal fuel u.tail with
        | some (v, r2) => some ((String.mk k, v), r2)
        | none => none
      else none
    | none => none
  else none

/-- Parse the fields of an object after the first one: a comma followed by
a field, repeatedly, then the closing brace. -/
def parseFields : Nat → List Char → Option (List (String × Json) × List Char)
| 0, _ => none
| fuel + 1, cs =>
  let t := skipWs cs
  if t.head? = some '\x7d' then some ([], t.tail)
  else if t.head? = some ',' then
    match parseField fuel t.tail with
    | some (f, r) =>
      match parseFields fuel r with
      | some (fl, r2) => some (f :: fl, r2)
      | none => none
    | none => none
  else none

end

/-- Embeds `JSON.parse`: parse a whole string as one JSON value, allowing
surrounding whitespace; `none` models the thrown `SyntaxError`. -/
def Json.parse (s : String) : Option Json :=
  match parseVal (s.data.length + 1) s.data with
  | some (j, rest) => if (skipWs rest).isEmpty then some j else none
  | none => none

mutual

/-- Structural size of a JSON value, used as a fuel bound for the parser. -/
def jsize : Json → Nat
| Json.str _ => 1
| Json.bool _ => 1
| Json.null => 1
| Json.arr l => 1 + jsizeList l
| Json.obj l => 1 + jsizeFields l

/-- Structural size of a list of JSON values. -/
def jsizeList : List Json → Nat
| [] => 1
| j :: rest => 1 + jsize j + jsizeList rest

/-- Structural size of a list of JSON object fields. -/
def jsizeFields : List (String × Json) → Nat
| [] => 1
| (_, v) :: rest => 1 + jsize v + jsizeFields rest

end

/-! ### The generated file contents

The template strings live in `./setup-files`, which is not among the
modelled sources; they are modelled from the spec as fixed documents. -/

/-- Modelled from the spec: the fixed sample blog document written to the
content folder (`blogPost` from `./setup-files`, not among the modelled
sources). -/
def blogPost : String :=
  "---\ntitle: Hello World\n---\nThis is your first post\n"

/-- Modelled from the spec: the static provider component variant
(`TinaProvider` from `./setup-files/tinaProvider`, not among the modelled
sources). -/
def TinaProvider : String :=
  "import React from react\nexport default TinaProviderComponent\n"

/-- Modelled from the spec: the dynamic provider component variant
(`TinaProviderDynamic` from `./setup-files/tinaProvider`, not among the
modelled sources). -/
def TinaProviderDynamic : String :=
  "import dynamic from next/dynamic\nexport default TinaDynamicProviderComponent\n"

/-- Modelled from the spec: the generated demo blog listing page
(`nextPostPage` from `./setup-files`, not among the modelled sources). -/
def nextPostPage : String :=
  "import React from react\nexport default BlogPage\n"

/-- Modelled from the spec: the generated admin toggle page (`adminPage`
from `./setup-files`, not among the modelled sources). -/
def adminPage : String :=
  "import React from react\nexport default AdminPage\n"

/-- Modelled from the spec: the generated application entry point
(`AppJsContent` from `./setup-files`, not among the modelled sources).
The captured style-import lines are re-included verbatim ahead of the
generated body, and the body follows the working layout convention
(src-rooted or root-rooted). -/
def AppJsContent (useingSrc : Bool) (css : String) : String :=
  css ++ "\n" ++
    (if useingSrc then
      "import TinaDynamicProvider from ../../.tina/components/TinaDynamicProvider.js\nexport default AppWrappedInTina\n"
    else
      "import TinaDynamicProvider from ../.tina/components/TinaDynamicProvider.js\nexport default AppWrappedInTina\n")

/-! ### Script-manifest helpers

`extendNextScripts` lives in `../../utils/script-helpers`, which is not
among the modelled sources; it is modelled from the spec. -/

/-- Look up a field of a JSON object by key (first match). -/
def lookupField : List (String × Json) → String → Option Json
| [], _ => none
| (k, v) :: rest, key => if k = key then some v else lookupField rest key

/-- Set a field of a JSON object, modelling a JavaScript object-spread
override: an existing key keeps its position and receives the new value, a
new key is appended. -/
def setField : List (String × Json) → String → Json → List (String × Json)
| [], key, v => [(key, v)]
| (k, v0) :: rest, key, v =>
  if k = key then (key, v) :: rest else (k, v0) :: setField rest key v

/-- Modelled from the spec: the fixed set of named script entries the
manifest update injects (development, build and generation commands; the
concrete command strings are not among the modelled sources). -/
def injectedScripts : List (String × String) :=
  [("dev", "tinacms server:start -c next dev"),
   ("build", "tinacms server:start -c next build"),
   ("generate", "tinacms generate")]

/-- Modelled from the spec: `extendNextScripts` from
`../../utils/script-helpers` (not among the modelled sources) merges
in/overrides the fixed script entries, preserving unrecognized existing
entries. -/
def extendNextScripts (scripts : List (String × Json)) : List (String × Json) :=
  injectedScripts.foldl (fun acc kv => setField acc kv.1 (Json.str kv.2)) scripts

/-- The object fields of a parsed manifest.  The source spreads the parsed
value into an object literal; for the non-object scalars modelled here the
spread contributes no fields. -/
def packFields : Json → List (String × Json)
| Json.obj f => f
| _ => []

/-- The scripts mapping of a parsed manifest, defaulting to the empty
object when absent or falsy as in the source: its fields when it is an
object, empty otherwise. -/
def oldScriptsOf (fields : List (String × Json)) : List (String × Json) :=
  match lookupField fields "scripts" with
  | some (Json.obj sc) => sc
  | _ => []

/-- The updated manifest fields: the object spread of the parsed manifest
with its scripts entry replaced by the merged scripts, as in the source. -/
def mergedPackFields (pack : Json) : List (String × Json) :=
  setField (packFields pack) "scripts"
    (Json.obj (extendNextScripts (oldScriptsOf (packFields pack))))

/-! ### The style-import line matcher

Embeds the style-import regular expression of the source, applied with
`matchAll` in multiline mode: with both anchors and greedy dots, a line
matches (as a whole) exactly when it contains the word `import` followed, at
or after its end, by the characters `.css` and then a double or single
quote. -/

/-- Whether the character sequence starts with `.css` followed by a double
or single quote. -/
def cssQuoteAt : List Char → Bool
| '.' :: 'c' :: 's' :: 's' :: q :: _ => q = '\x22' || q = '\x27'
| _ => false

/-- Whether `.css` followed by a quote occurs anywhere in the sequence. -/
def hasCssQuote : List Char → Bool
| [] => false
| c :: rest => cssQuoteAt (c :: rest) || hasCssQuote rest

/-- Whether the character sequence starts with `import`. -/
def importAt : List Char → Bool
| 'i' :: 'm' :: 'p' :: 'o' :: 'r' :: 't' :: _ => true
| _ => false

/-- Whether a line matches the style-import pattern: some occurrence of
`import` is followed (after its six characters) by `.css` and a quote. -/
def lineMatchesCss : List Char → Bool
| [] => false
| c :: rest => (importAt (c :: rest) && hasCssQuote (List.drop 5 rest)) || lineMatchesCss rest

/-- Split a character sequence into its newline-separated lines (the `m`
flag of the regular expression scopes the anchors to lines). -/
def splitOnNl : List Char → List (List Char)
| [] => [[]]
| c :: rest =>
  if c = '\n' then [] :: splitOnNl rest
  else
    match splitOnNl rest with
    | [] => [[c]]
    | l :: ls => (c :: l) :: ls

/-- Join lines with newlines, as the source does with the matched lines. -/
def joinNl : List (List Char) → List Char
| [] => []
| [l] => l
| l :: ls => l ++ '\n' :: joinNl ls

/-- The matched style-import lines of an entry-point file, in their
original order, joined with newlines: the value the source passes to the
entry-point template. -/
def cssImports (content : String) : String :=
  String.mk (joinNl ((splitOnNl content.data).filter lineMatchesCss))

/-! ### The pipeline stages -/

/-- A call to the logger, tagged with the theme of the source call site
(`logText`/`successText` info, `warnText` warning, `dangerText` danger). -/
inductive LogMsg
| info (s : String) : LogMsg
| warn (s : String) : LogMsg
| danger (s : String) : LogMsg
deriving DecidableEq, Repr

/-- Message of the opening logger call of `initTina`. -/
def msgSettingUp : String := "Setting up Tina..."

/-- Message of the logger call announcing the content folder. -/
def msgAddingContent : String := "Adding a content folder..."

/-- Message of the logger call announcing a freshly created entry point. -/
def msgAddingAppJs : String := "Adding _app.js ... ✅"

/-- Message of the logger call announcing the regenerated entry point with
its detected extension. -/
def msgAddingApp (appExtension : String) : String :=
  "Adding _app" ++ appExtension ++ " ... ✅"

/-- Message of the manual-integration instructions printed when the
overwrite prompt is declined. -/
def msgManual (useingSrc : Bool) : String :=
  "Heads up, to enable live-editing you\x27ll need to wrap your page or site in Tina:\n"
    ++ AppJsContent useingSrc ""

/-- Message of the completion logger call after the demo listing step. -/
def msgContentDone : String := "Adding a content folder... ✅"

/-- Message of the warning emitted when the admin path collides with an
existing path. -/
def msgAdminExists : String :=
  "Unable to add /pages/admin.js, this path already exists.\n\tLearn more about toggling edit-mode at https://tina.io/docs/tinacms-context/#manually-toggling-edit-mode"

/-- The outcome of the telemetry submission attempt. -/
inductive TelemetryOutcome
| success : TelemetryOutcome
| failure : TelemetryOutcome

/-- The result of one pipeline stage: its logger calls and whether it
invoked its continuation (`next()`). -/
structure StageResult where
  log : List LogMsg
  nextCalled : Bool
deriving DecidableEq, Repr

/-- Modelled from the spec: `Telemetry.submitRecord` from
`@tinacms/metrics` (not among the modelled sources) is best-effort — it
resolves for every outcome, success or failure, and never rejects (a
rejection would be `none` here and would abort the awaiting stage); when
telemetry is disabled nothing is sent. -/
def submitRecord (_noTelemetry : Bool) (_outcome : TelemetryOutcome) : Option Unit :=
  some ()

/-- Embeds `initTina`: await the telemetry submission, log the opening
message and invoke the continuation.  `none` would model an uncaught
rejection of the awaited submission. -/
def initTina (noTelemetry : Bool) (outcome : TelemetryOutcome) : Option StageResult :=
  match submitRecord noTelemetry outcome with
  | some _ => some { log := [LogMsg.info msgSettingUp], nextCalled := true }
  | none => none

/-- The observable outcome of the spawned subprocess, as passed to the
`exec` callback. -/
structure ExecResult where
  error : Option String
  stdout : String
  stderr : String

/-- Embeds `execShellCommand`: the promise executor warns on a subprocess
error and resolves in every case — with `stdout` when it is nonempty
(truthy), with `stderr` otherwise.  `reject` is never invoked, so the
result is not optional. -/
def execShellCommand (r : ExecResult) : List LogMsg × String :=
  (match r.error with
   | some e => [LogMsg.warn e]
   | none => [],
   if r.stdout = "" then r.stderr else r.stdout)

/-- The fixed dependency list installed by the second stage. -/
def deps : List String := ["tinacms", "styled-components", "@tinacms/cli"]

/-- The shell command of the second stage. -/
def installCMD : String := "yarn add " ++ String.intercalate " " deps

/-- Embeds `installDeps`: await the shell command and invoke the
continuation; the subprocess exit status has no influence on either. -/
def installDeps (r : ExecResult) : StageResult :=
  { log := (execShellCommand r).1, nextCalled := true }

/-! ### The scaffold stage -/

/-- The content directory; the source joins it from the base directory
unconditionally, with no src handling. -/
def blogContentPath : Path := ["content", "posts"]

/-- The sample post file. -/
def blogPostPath : Path := ["content", "posts", "HelloWorld.md"]

/-- The `.tina` folder. -/
def TinaFolder : Path := [".tina"]

/-- The components folder (rooted at the base directory
unconditionally). -/
def componentFolder : Path := [".tina", "components"]

/-- The static provider component file path. -/
def TinaProviderPath : Path := [".tina", "components", "TinaProvider.js"]

/-- The dynamic provider component file path. -/
def TinaDynamicProvider : Path := [".tina", "components", "TinaDynamicProvider.js"]

/-- The pages directory: under `src` exactly when the working directory
has a `src` folder. -/
def pagesPath (useingSrc : Bool) : Path :=
  if useingSrc then ["src", "pages"] else ["pages"]

/-- The JavaScript entry-point path. -/
def appPath (useingSrc : Bool) : Path := pagesPath useingSrc ++ ["_app.js"]

/-- The TypeScript entry-point path. -/
def appPathTS (useingSrc : Bool) : Path := pagesPath useingSrc ++ ["_app.tsx"]

/-- The demo blog directory. -/
def tinaBlogPagePath (useingSrc : Bool) : Path := pagesPath useingSrc ++ ["demo", "blog"]

/-- The demo blog listing file. -/
def tinaBlogPagePathFile (useingSrc : Bool) : Path :=
  tinaBlogPagePath useingSrc ++ ["[filename].js"]

/-- The manifest file path. -/
def packagePath : Path := ["package.json"]

/-- The admin toggle page path. -/
def adminPath (useingSrc : Bool) : Path := pagesPath useingSrc ++ ["admin.js"]

/-- The state threaded through the scaffold stage: the filesystem, the
logger calls so far, and whether execution is still running normally
(`ok := false` models an uncaught exception; the filesystem keeps the
writes made before it). -/
structure St where
  fs : FS
  log : List LogMsg
  ok : Bool
deriving DecidableEq, Repr

/-- Append a logger call. -/
def St.addLog (s : St) (m : LogMsg) : St := { s with log := s.log ++ [m] }

/-- Apply the result of a fallible file operation to the state: on `none`
the modelled exception stops normal execution. -/
def St.withFS (s : St) (o : Option FS) : St :=
  match o with
  | some fs => { s with fs := fs }
  | none => { s with ok := false }

/-- Run the next part of the stage only when execution is still normal. -/
def andThen (s : St) (f : St → St) : St := if s.ok then f s else s

/-- Step 1 of `tinaSetup`: ensure the sample content folder and post. -/
def step1Content (s : St) : St :=
  if pathExists s.fs blogPostPath then s
  else
    match mkdirp s.fs blogContentPath with
    | none => { St.addLog s (LogMsg.info msgAddingContent) with ok := false }
    | some fs1 =>
      St.withFS { St.addLog s (LogMsg.info msgAddingContent) with fs := fs1 }
        (writeFile fs1 blogPostPath blogPost)

/-- Step 2 of `tinaSetup`: when neither provider file exists, create the
components folder and write both provider variants. -/
def step2Providers (s : St) : St :=
  if !pathExists s.fs TinaProviderPath && !pathExists s.fs TinaDynamicProvider then
    match mkdirp s.fs componentFolder with
    | none => { s with ok := false }
    | some fs1 =>
      match writeFile fs1 TinaProviderPath TinaProvider with
      | none => { s with fs := fs1, ok := false }
      | some fs2 =>
        St.withFS { s with fs := fs2 } (writeFile fs2 TinaDynamicProvider TinaProviderDynamic)
  else s

/-- The detected entry-point extension: `.js` exactly when `_app.js`
exists. -/
def appExtensionOf (fs : FS) (useingSrc : Bool) : String :=
  if pathExists fs (appPath useingSrc) then ".js" else ".tsx"

/-- The path the regenerated entry point is written to: the source joins
the pages path with the entry-point name carrying the detected extension. -/
def appPathWithExt (fs : FS) (useingSrc : Bool) : Path :=
  pagesPath useingSrc ++ ["_app" ++ appExtensionOf fs useingSrc]

/-- Step 3 of `tinaSetup`: ensure the application entry point, prompting
before an overwrite.  `override` is the answer the prompt would receive. -/
def step3App (useingSrc override : Bool) (s : St) : St :=
  if !pathExists s.fs (appPath useingSrc) && !pathExists s.fs (appPathTS useingSrc) then
    St.withFS (St.addLog s (LogMsg.info msgAddingAppJs))
      (writeFile s.fs (appPath useingSrc) (AppJsContent useingSrc ""))
  else if override then
    match
      (if pathExists s.fs (appPath useingSrc) then readFile s.fs (appPath useingSrc)
       else readFile s.fs (appPathTS useingSrc)) with
    | none =>
      { St.addLog s (LogMsg.info (msgAddingApp (appExtensionOf s.fs useingSrc))) with
          ok := false }
    | some fileContent =>
      St.withFS (St.addLog s (LogMsg.info (msgAddingApp (appExtensionOf s.fs useingSrc))))
        (writeFile s.fs (appPathWithExt s.fs useingSrc)
          (AppJsContent useingSrc (cssImports fileContent)))
  else
    St.addLog s (LogMsg.danger (msgManual useingSrc))

/-- The write part of step 4: ensure the demo blog listing page. -/
def demoWrite (useingSrc : Bool) (s : St) : St :=
  if pathExists s.fs (tinaBlogPagePathFile useingSrc) then s
  else
    match mkdirp s.fs (tinaBlogPagePath useingSrc) with
    | none => { s with ok := false }
    | some fs1 =>
      St.withFS { s with fs := fs1 }
        (writeFile fs1 (tinaBlogPagePathFile useingSrc) nextPostPage)

/-- The logging part of step 4: the completion message, reached only when
no exception interrupted the write. -/
def demoLog (s : St) : St :=
  if s.ok then St.addLog s (LogMsg.info msgContentDone) else s

/-- Step 4 of `tinaSetup`: ensure the demo blog listing page, then log the
completion message. -/
def step4Demo (useingSrc : Bool) (s : St) : St :=
  demoLog (demoWrite useingSrc s)

/-- Step 5 of `tinaSetup`: read and parse the manifest, merge the script
entries, and rewrite it with 2-space indentation. -/
def step5Package (s : St) : St :=
  match readFile s.fs packagePath with
  | none => { s with ok := false }
  | some contents =>
    match Json.parse contents with
    | none => { s with ok := false }
    | some pack =>
      St.withFS s
        (writeFile s.fs packagePath (stringifyJson (Json.obj (mergedPackFields pack))))

/-- Step 6 of `tinaSetup`: warn and skip when a path already exists at the
conventional admin location, write the admin page unconditionally
otherwise. -/
def step6Admin (useingSrc : Bool) (s : St) : St :=
  if pathExists s.fs (pagesPath useingSrc ++ ["admin"]) then
    St.addLog s (LogMsg.warn msgAdminExists)
  else
    St.withFS s (outputFile s.fs (adminPath useingSrc) adminPage)

/-- Embeds `tinaSetup`: the scaffold stage, over an initial filesystem and
the answer the overwrite prompt would receive.  The final `ok` field says
whether the continuation (`next()`) was reached. -/
def tinaSetup (fs : FS) (override : Bool) : St :=
  let useingSrc := pathExists fs ["src"]
  let s0 : St := { fs := fs, log := [], ok := true }
  andThen (andThen (andThen (andThen (andThen (step1Content s0)
    step2Providers) (step3App useingSrc override)) (step4Demo useingSrc))
    step5Package) (step6Admin useingSrc)

/-! ### Write-path accounting -/

/-- Every path step 1 may create or overwrite. -/
def step1Paths : List Path := nonemptyPrefixes blogContentPath ++ [blogPostPath]

/-- Every path step 2 may create or overwrite. -/
def step2Paths : List Path :=
  nonemptyPrefixes componentFolder ++ [TinaProviderPath, TinaDynamicProvider]

/-- Every path step 3 may create or overwrite. -/
def step3Paths (u : Bool) : List Path := [appPath u, appPathTS u]

/-- Every path step 4 may create or overwrite. -/
def step4Paths (u : Bool) : List Path :=
  nonemptyPrefixes (tinaBlogPagePath u) ++ [tinaBlogPagePathFile u]

/-- Every path step 5 may create or overwrite. -/
def step5Paths : List Path := [packagePath]

/-- Every path step 6 may create or overwrite. -/
def step6Paths (u : Bool) : List Path := nonemptyPrefixes (pagesPath u) ++ [adminPath u]

/-- Every path the scaffold stage may create or overwrite, by layout. -/
def writePaths (u : Bool) : List Path :=
  step1Paths ++ step2Paths ++ step3Paths u ++ step4Paths u ++ step5Paths ++ step6Paths u

/-- The scaffold outputs that stay rooted at the project root even when a
`src` folder is present: sample content, provider components, and the
manifest. -/
def rootWritePaths : List Path := step1Paths ++ step2Paths ++ step5Paths

/-! ### The scaffolded-state invariant -/

/-- Every nonempty prefix of `p` is a directory of `fs`. -/
def PrefixesDir (fs : FS) (p : Path) : Prop :=
  ∀ r, r ≠ [] → r <+: p → FS.lookup fs r = some Entry.dir

/-- Manifest fields on which the script merge is a no-op. -/
def MergeStable (f : List (String × Json)) : Prop :=
  mergedPackFields (Json.obj f) = f

/-- The state of a project after a successful scaffold run: each step of a
second run finds its target already present (or, for the manifest, already
merged). -/
def Scaffolded (u : Bool) (fs : FS) : Prop :=
  (FS.lookup fs blogPostPath).isSome = true ∧
  ((FS.lookup fs TinaProviderPath).isSome = true ∨
    (FS.lookup fs TinaDynamicProvider).isSome = true) ∧
  ((FS.lookup fs (appPath u)).isSome = true ∨
    (FS.lookup fs (appPathTS u)).isSome = true) ∧
  (FS.lookup fs (tinaBlogPagePathFile u)).isSome = true ∧
  (∃ f, FS.lookup fs packagePath = some (Entry.file (stringifyJson (Json.obj f))) ∧
    MergeStable f) ∧
  ((FS.lookup fs (pagesPath u ++ ["admin"])).isSome = true ∨
    (FS.lookup fs (adminPath u) = some (Entry.file adminPage) ∧
      PrefixesDir fs (pagesPath u)))

/-! ### Concrete fixtures for the witnesses -/

/-- A manifest whose scripts object has the single pre-existing entry
mapping start to x, rendered with 2-space indentation. -/
def pkgStart : String :=
  "\x7b\n  \x22scripts\x22: \x7b\n    \x22start\x22: \x22x\x22\n  \x7d\n\x7d"

/-- The empty JSON-object manifest. -/
def pkgEmpty : String := "\x7b\x7d"

/-- A plain project: a `pages` directory and a manifest. -/
def fsPlain : FS := [(["pages"], Entry.dir), (["package.json"], Entry.file pkgStart)]

/-- A project using the `src` layout. -/
def fsSrc : FS :=
  [(["src"], Entry.dir), (["src", "pages"], Entry.dir),
   (["package.json"], Entry.file pkgEmpty)]

/-- A project with an existing `pages/admin` directory. -/
def fsAdminDir : FS :=
  [(["pages"], Entry.dir), (["pages", "admin"], Entry.dir),
   (["package.json"], Entry.file pkgEmpty)]

/-- A project with an existing `pages/admin.js` file. -/
def fsAdminFile : FS :=
  [(["pages"], Entry.dir), (["pages", "admin.js"], Entry.file "custom admin page"),
   (["package.json"], Entry.file pkgEmpty)]

/-- An entry-point file with two style-import lines among others. -/
def appOldSample : String :=
  "import mystyles.css\x27 from somewhere\nconst x = 1\nimport another from other.css\x22 tail\n"

/-- A project with an existing JavaScript entry point. -/
def fsApp : FS :=
  [(["pages"], Entry.dir), (["pages", "_app.js"], Entry.file appOldSample),
   (["package.json"], Entry.file pkgEmpty)]

/-- A project with an existing TypeScript entry point only. -/
def fsAppTS : FS :=
  [(["pages"], Entry.dir), (["pages", "_app.tsx"], Entry.file appOldSample),
   (["package.json"], Entry.file pkgEmpty)]

/-- A project with both a JavaScript and a TypeScript entry point. -/
def fsBothApps : FS :=
  [(["pages"], Entry.dir), (["pages", "_app.js"], Entry.file appOldSample),
   (["pages", "_app.tsx"], Entry.file "tsx entry point"),
   (["package.json"], Entry.file pkgEmpty)]

/-- A project that already has the static provider file only. -/
def fsOneProvider : FS :=
  [(["pages"], Entry.dir),
   ([".tina"], Entry.dir), ([".tina", "components"], Entry.dir),
   ([".tina", "components", "TinaProvider.js"], Entry.file "custom provider"),
   (["package.json"], Entry.file pkgEmpty)]

/-- A failing subprocess outcome. -/
def execErr : ExecResult :=
  { error := some "exit status 1", stdout := "", stderr := "network failure" }

/-! ## Lemmas about the filesystem model -/

theorem FS.lookup_set_self (fs : FS) (p : Path) (e : Entry) :
    FS.lookup (FS.set fs p e) p = some e := by
  induction fs with
  | nil => simp [FS.set, FS.lookup]
  | cons hd tl ih =>
    obtain ⟨q, e0⟩ := hd
    by_cases h : q = p
    · subst h; simp [FS.set, FS.lookup]
    · simp [FS.set, FS.lookup, h, ih]

theorem FS.lookup_set_ne (fs : FS) (p q : Path) (e : Entry) (h : q ≠ p) :
    FS.lookup (FS.set fs p e) q = FS.lookup fs q := by
  induction fs with
  | nil => simp [FS.set, FS.lookup, (Ne.symm h : p ≠ q)]
  | cons hd tl ih =>
    obtain ⟨q0, e0⟩ := hd
    by_cases h0 : q0 = p
    · subst h0
      simp only [FS.set, if_pos rfl, FS.lookup]
      rw [if_neg (fun hh => h hh.symm), if_neg (fun hh => h hh.symm)]
    · simp only [FS.set, if_neg h0, FS.lookup]
      by_cases h1 : q0 = q
      · simp [h1]
      · simp [h1, ih]

theorem FS.set_eq_of_lookup (fs : FS) (p : Path) (e : Entry)
    (h : FS.lookup fs p = some e) : FS.set fs p e = fs := by
  induction fs with
  | nil => simp [FS.lookup] at h
  | cons hd tl ih =>
    obtain ⟨q, e0⟩ := hd
    by_cases h0 : q = p
    · subst h0
      have h' : e0 = e := by simpa [FS.lookup] using h
      simp [FS.set, h']
    · simp only [FS.lookup, if_neg h0] at h
      simp [FS.set, h0, ih h]

theorem FS.isSome_lookup_set (fs : FS) (p q : Path) (e : Entry)
    (h : (FS.lookup fs q).isSome = true) :
    (FS.lookup (FS.set fs p e) q).isSome = true := by
  by_cases hq : q = p
  · subst hq; rw [FS.lookup_set_self]; rfl
  · rw [FS.lookup_set_ne fs p q e hq]; exact h

theorem mem_nonemptyPrefixes (p q : Path) :
    q ∈ nonemptyPrefixes p ↔ q ≠ [] ∧ q <+: p := by
  induction p generalizing q with
  | nil =>
    simp only [nonemptyPrefixes, List.not_mem_nil, false_iff]
    rintro ⟨hne, hpre⟩
    exact hne (List.prefix_nil.mp hpre)
  | cons d rest ih =>
    simp only [nonemptyPrefixes, List.mem_cons, List.mem_map]
    constructor
    · rintro (rfl | ⟨q', hq', rfl⟩)
      · exact ⟨by simp, ⟨rest, rfl⟩⟩
      · obtain ⟨hne, hpre⟩ := (ih q').mp hq'
        exact ⟨by simp, (List.cons_prefix_cons).mpr ⟨rfl, hpre⟩⟩
    · rintro ⟨hne, hpre⟩
      match q, hne with
      | a :: q', _ =>
        obtain ⟨rfl, hpre'⟩ := (List.cons_prefix_cons).mp hpre
        rcases q' with _ | ⟨b, q''⟩
        · exact Or.inl rfl
        · exact Or.inr ⟨b :: q'', (ih _).mpr ⟨by simp, hpre'⟩, rfl⟩

theorem mkdirpAux_frame (rest : List String) :
    ∀ (fs fs' : FS) (done : Path), mkdirpAux fs done rest = some fs' →
    ∀ q, (∀ r, r ≠ [] → r <+: rest → q ≠ done ++ r) →
    FS.lookup fs' q = FS.lookup fs q := by
  induction rest with
  | nil => intro fs fs' done h q _; simp only [mkdirpAux, Option.some.injEq] at h; rw [h]
  | cons d rest ih =>
    intro fs fs' done h q hq
    have hq' : ∀ r, r ≠ [] → r <+: rest → q ≠ (done ++ [d]) ++ r := by
      intro r hr hpre
      have := hq (d :: r) (by simp) ((List.cons_prefix_cons).mpr ⟨rfl, hpre⟩)
      simpa using this
    have hqd : q ≠ done ++ [d] := by
      have := hq [d] (by simp) ⟨rest, rfl⟩
      simpa using this
    simp only [mkdirpAux] at h
    rcases he : FS.lookup fs (done ++ [d]) with _ | e
    · rw [he] at h
      rw [ih _ _ _ h q hq', FS.lookup_set_ne _ _ _ _ hqd]
    · rcases e with c | _
      · rw [he] at h; exact absurd h (by simp)
      · rw [he] at h
        exact ih _ _ _ h q hq'

theorem mkdirpAux_mono (rest : List String) :
    ∀ (fs fs' : FS) (done : Path), mkdirpAux fs done rest = some fs' →
    ∀ q e, FS.lookup fs q = some e → FS.lookup fs' q = some e := by
  induction rest with
  | nil => intro fs fs' done h q e hq; simp only [mkdirpAux, Option.some.injEq] at h; rw [h] at hq; exact hq
  | cons d rest ih =>
    intro fs fs' done h q e hq
    simp only [mkdirpAux] at h
    rcases he : FS.lookup fs (done ++ [d]) with _ | e0
    · rw [he] at h
      refine ih _ _ _ h q e ?_
      have hqd : q ≠ done ++ [d] := by rintro rfl; rw [hq] at he; cases he
      rw [FS.lookup_set_ne _ _ _ _ hqd]; exact hq
    · rcases e0 with c | _
      · rw [he] at h; exact absurd h (by simp)
      · rw [he] at h; exact ih _ _ _ h q e hq

theorem mkdirpAux_dirs (rest : List String) :
    ∀ (fs fs' : FS) (done : Path), mkdirpAux fs done rest = some fs' →
    ∀ r, r ≠ [] → r <+: rest → FS.lookup fs' (done ++ r) = some Entry.dir := by
  induction rest with
  | nil =>
    intro fs fs' done _ r hr hpre
    exact absurd (List.prefix_nil.mp hpre) hr
  | cons d rest ih =>
    intro fs fs' done h r hr hpre
    rcases r with _ | ⟨a, r'⟩
    · exact absurd rfl hr
    obtain ⟨rfl, hpre'⟩ := (List.cons_prefix_cons).mp hpre
    simp only [mkdirpAux] at h
    rcases he : FS.lookup fs (done ++ [a]) with _ | e0
    · rw [he] at h
      rcases r' with _ | ⟨b, r''⟩
      · have := mkdirpAux_mono rest _ _ _ h (done ++ [a]) Entry.dir (FS.lookup_set_self _ _ _)
        simpa using this
      · have := ih _ _ _ h (b :: r'') (by simp) hpre'
        simpa using this
    · rcases e0 with c | _
      · rw [he] at h; exact absurd h (by simp)
      · rw [he] at h
        rcases r' with _ | ⟨b, r''⟩
        · have := mkdirpAux_mono rest _ _ _ h (done ++ [a]) Entry.dir he
          simpa using this
        · have := ih _ _ _ h (b :: r'') (by simp) hpre'
          simpa using this

theorem mkdirpAux_noop (rest : List String) :
    ∀ (fs : FS) (done : Path),
    (∀ r, r ≠ [] → r <+: rest → FS.lookup fs (done ++ r) = some Entry.dir) →
    mkdirpAux fs done rest = some fs := by
  induction rest with
  | nil => intro fs done _; simp [mkdirpAux]
  | cons d rest ih =>
    intro fs done hdirs
    have hd : FS.lookup fs (done ++ [d]) = some Entry.dir :=
      hdirs [d] (by simp) ⟨rest, rfl⟩
    simp only [mkdirpAux, hd]
    refine ih fs (done ++ [d]) ?_
    intro r hr hpre
    have := hdirs (d :: r) (by simp) ((List.cons_prefix_cons).mpr ⟨rfl, hpre⟩)
    simpa using this

theorem mkdirp_frame (fs fs' : FS) (p : Path) (h : mkdirp fs p = some fs')
    (q : Path) (hq : q ∉ nonemptyPrefixes p) :
    FS.lookup fs' q = FS.lookup fs q := by
  refine mkdirpAux_frame p fs fs' [] h q ?_
  intro r hr hpre
  rintro rfl
  exact hq ((mem_nonemptyPrefixes p _).mpr ⟨by simpa using hr, by simpa using hpre⟩)

theorem mkdirp_mono (fs fs' : FS) (p : Path) (h : mkdirp fs p = some fs')
    (q : Path) (e : Entry) (hq : FS.lookup fs q = some e) :
    FS.lookup fs' q = some e :=
  mkdirpAux_mono p fs fs' [] h q e hq

theorem mkdirp_dirs (fs fs' : FS) (p : Path) (h : mkdirp fs p = some fs') :
    PrefixesDir fs' p := by
  intro r hr hpre
  have := mkdirpAux_dirs p fs fs' [] h r hr hpre
  simpa using this

theorem mkdirp_noop (fs : FS) (p : Path) (h : PrefixesDir fs p) :
    mkdirp fs p = some fs := by
  refine mkdirpAux_noop p fs [] ?_
  intro r hr hpre
  simpa using h r hr hpre

theorem writeFile_eq (fs fs' : FS) (p : Path) (c : String)
    (h : writeFile fs p c = some fs') : fs' = FS.set fs p (Entry.file c) := by
  simp only [writeFile] at h
  split at h
  · split at h
    · cases h
    · simpa [eq_comm] using h
  · cases h

theorem writeFile_self (fs fs' : FS) (p : Path) (c : String)
    (h : writeFile fs p c = some fs') : FS.lookup fs' p = some (Entry.file c) := by
  rw [writeFile_eq fs fs' p c h]; exact FS.lookup_set_self _ _ _

theorem writeFile_frame (fs fs' : FS) (p q : Path) (c : String)
    (h : writeFile fs p c = some fs') (hq : q ≠ p) :
    FS.lookup fs' q = FS.lookup fs q := by
  rw [writeFile_eq fs fs' p c h]; exact FS.lookup_set_ne _ _ _ _ hq

theorem writeFile_mono (fs fs' : FS) (p q : Path) (c : String)
    (h : writeFile fs p c = some fs')
    (hq : (FS.lookup fs q).isSome = true) : (FS.lookup fs' q).isSome = true := by
  rw [writeFile_eq fs fs' p c h]; exact FS.isSome_lookup_set _ _ _ _ hq

theorem writeFile_noop (fs : FS) (p : Path) (c : String)
    (hp : parentOk fs p = true) (h : FS.lookup fs p = some (Entry.file c)) :
    writeFile fs p c = some fs := by
  simp only [writeFile, hp, if_pos, h]
  rw [FS.set_eq_of_lookup fs p (Entry.file c) h]

theorem outputFile_frame (fs fs' : FS) (p q : Path) (c : String)
    (h : outputFile fs p c = some fs')
    (hq1 : q ∉ nonemptyPrefixes p.dropLast) (hq2 : q ≠ p) :
    FS.lookup fs' q = FS.lookup fs q := by
  simp only [outputFile] at h
  rcases hm : mkdirp fs p.dropLast with _ | fs1
  · rw [hm] at h; cases h
  · rw [hm] at h
    rw [writeFile_frame fs1 fs' p q c h hq2, mkdirp_frame fs fs1 _ hm q hq1]

theorem outputFile_self (fs fs' : FS) (p : Path) (c : String)
    (h : outputFile fs p c = some fs') : FS.lookup fs' p = some (Entry.file c) := by
  simp only [outputFile] at h
  rcases hm : mkdirp fs p.dropLast with _ | fs1
  · rw [hm] at h; cases h
  · rw [hm] at h; exact writeFile_self fs1 fs' p c h

theorem outputFile_mono (fs fs' : FS) (p q : Path) (c : String)
    (h : outputFile fs p c = some fs')
    (hq : (FS.lookup fs q).isSome = true) : (FS.lookup fs' q).isSome = true := by
  simp only [outputFile] at h
  rcases hm : mkdirp fs p.dropLast with _ | fs1
  · rw [hm] at h; cases h
  · rw [hm] at h
    refine writeFile_mono fs1 fs' p q c h ?_
    rcases he : FS.lookup fs q with _ | e
    · rw [he] at hq; cases hq
    · rw [mkdirp_mono fs fs1 _ hm q e he]; rfl

theorem outputFile_dirs (fs fs' : FS) (p : Path) (c : String)
    (h : outputFile fs p c = some fs') : PrefixesDir fs' p.dropLast := by
  simp only [outputFile] at h
  rcases hm : mkdirp fs p.dropLast with _ | fs1
  · rw [hm] at h; cases h
  · rw [hm] at h
    intro r hr hpre
    have hrp : r ≠ p := by
      intro hEq
      have h1 : r.length ≤ (List.dropLast p).length := hpre.length_le
      rw [List.length_dropLast] at h1
      subst hEq
      rcases r with _ | ⟨a, l⟩
      · exact hr rfl
      · simp [List.length_cons] at h1
    rw [writeFile_eq fs1 fs' p c h, FS.lookup_set_ne _ _ _ _ hrp]
    exact mkdirp_dirs fs fs1 _ hm r hr hpre

/-! ## Lemmas about the stage state -/

theorem addLog_fs (s : St) (m : LogMsg) : (St.addLog s m).fs = s.fs := rfl

theorem addLog_ok (s : St) (m : LogMsg) : (St.addLog s m).ok = s.ok := rfl

theorem withFS_ok (s : St) (o : Option FS) (h : (St.withFS s o).ok = true) :
    s.ok = true ∧ ∃ fs1, o = some fs1 ∧ St.withFS s o = { s with fs := fs1 } := by
  cases o with
  | none => simp [St.withFS] at h
  | some fs1 => exact ⟨h, fs1, rfl, rfl⟩

theorem andThen_of_ok (s : St) (f : St → St) (h : s.ok = true) : andThen s f = f s := by
  simp [andThen, h]

theorem ok_of_andThen (s : St) (f : St → St) (h : (andThen s f).ok = true) :
    s.ok = true := by
  by_cases hs : s.ok = true
  · exact hs
  · rw [andThen, if_neg hs] at h; exact absurd h hs

theorem andThen_frame (s : St) (f : St → St) (q : Path)
    (hf : ∀ t, FS.lookup (f t).fs q = FS.lookup t.fs q) :
    FS.lookup (andThen s f).fs q = FS.lookup s.fs q := by
  by_cases hs : s.ok = true
  · rw [andThen_of_ok s f hs]; exact hf s
  · rw [andThen, if_neg hs]

theorem andThen_mono (s : St) (f : St → St) (q : Path)
    (hf : ∀ t, (FS.lookup t.fs q).isSome = true → (FS.lookup (f t).fs q).isSome = true)
    (h : (FS.lookup s.fs q).isSome = true) :
    (FS.lookup (andThen s f).fs q).isSome = true := by
  by_cases hs : s.ok = true
  · rw [andThen_of_ok s f hs]; exact hf s h
  · rw [andThen, if_neg hs]; exact h

/-! ## Lemmas about step 1 (sample content) -/

theorem step1_skip (s : St) (h : pathExists s.fs blogPostPath = true) :
    step1Content s = s := by
  simp [step1Content, h]

theorem step1_frame (s : St) (q : Path) (hq : q ∉ step1Paths) :
    FS.lookup (step1Content s).fs q = FS.lookup s.fs q := by
  have hq1 : q ∉ nonemptyPrefixes blogContentPath := by
    intro hmem; exact hq (by simp [step1Paths, List.mem_append, hmem])
  have hq2 : q ≠ blogPostPath := by
    intro hEq; exact hq (by simp [step1Paths, hEq])
  simp only [step1Content]
  split
  · rfl
  · rcases hm : mkdirp s.fs blogContentPath with _ | fs1
    · simp [St.addLog]
    · simp only [St.withFS]
      rcases hw : writeFile fs1 blogPostPath blogPost with _ | fs2
      · simpa [St.addLog] using mkdirp_frame s.fs fs1 _ hm q hq1
      · simp only [St.addLog]
        rw [writeFile_frame fs1 fs2 _ q _ hw hq2]
        exact mkdirp_frame s.fs fs1 _ hm q hq1

theorem step1_mono (s : St) (q : Path)
    (h : (FS.lookup s.fs q).isSome = true) :
    (FS.lookup (step1Content s).fs q).isSome = true := by
  simp only [step1Content]
  split
  · exact h
  · rcases hm : mkdirp s.fs blogContentPath with _ | fs1
    · simpa [St.addLog] using h
    · have h1 : (FS.lookup fs1 q).isSome = true := by
        rcases he : FS.lookup s.fs q with _ | e
        · rw [he] at h; cases h
        · rw [mkdirp_mono s.fs fs1 _ hm q e he]; rfl
      simp only [St.withFS]
      rcases hw : writeFile fs1 blogPostPath blogPost with _ | fs2
      · simpa [St.addLog] using h1
      · simpa [St.addLog] using writeFile_mono fs1 fs2 _ q _ hw h1

theorem step1_ok (s : St) (h : (step1Content s).ok = true) :
    s.ok = true ∧ pathExists (step1Content s).fs blogPostPath = true := by
  revert h
  simp only [step1Content]
  split
  · intro h; exact ⟨h, by assumption⟩
  · rcases hm : mkdirp s.fs blogContentPath with _ | fs1
    · intro h; simp [St.addLog] at h
    · simp only [St.withFS]
      rcases hw : writeFile fs1 blogPostPath blogPost with _ | fs2
      · intro h; simp [St.addLog] at h
      · intro h
        refine ⟨by simpa [St.addLog] using h, ?_⟩
        simp only [St.addLog, pathExists]
        rw [writeFile_self fs1 fs2 _ _ hw]
        rfl

/-! ## Lemmas about step 2 (provider components) -/

theorem step2_skip (s : St)
    (h : pathExists s.fs TinaProviderPath = true ∨ pathExists s.fs TinaDynamicProvider = true) :
    step2Providers s = s := by
  rcases h with h | h <;> simp [step2Providers, h]

theorem step2_frame (s : St) (q : Path) (hq : q ∉ step2Paths) :
    FS.lookup (step2Providers s).fs q = FS.lookup s.fs q := by
  have hq1 : q ∉ nonemptyPrefixes componentFolder := by
    intro hmem; exact hq (by simp [step2Paths, List.mem_append, hmem])
  have hq2 : q ≠ TinaProviderPath := by
    intro hEq; exact hq (by simp [step2Paths, hEq])
  have hq3 : q ≠ TinaDynamicProvider := by
    intro hEq; exact hq (by simp [step2Paths, hEq])
  simp only [step2Providers, St.withFS]
  split
  · split
    · rfl
    · rename_i fs1 hm
      split
      · rename_i hw
        simpa using mkdirp_frame s.fs fs1 _ hm q hq1
      · rename_i fs2 hw
        split
        · rename_i fs3 hw2
          simp only []
          rw [writeFile_frame fs2 fs3 _ q _ hw2 hq3,
            writeFile_frame fs1 fs2 _ q _ hw hq2]
          exact mkdirp_frame s.fs fs1 _ hm q hq1
        · rename_i hw2
          simp only []
          rw [writeFile_frame fs1 fs2 _ q _ hw hq2]
          exact mkdirp_frame s.fs fs1 _ hm q hq1
  · rfl

theorem step2_mono (s : St) (q : Path)
    (h : (FS.lookup s.fs q).isSome = true) :
    (FS.lookup (step2Providers s).fs q).isSome = true := by
  simp only [step2Providers, St.withFS]
  split
  · split
    · exact h
    · rename_i fs1 hm
      have h1 : (FS.lookup fs1 q).isSome = true := by
        rcases he : FS.lookup s.fs q with _ | e
        · rw [he] at h; cases h
        · rw [mkdirp_mono s.fs fs1 _ hm q e he]; rfl
      split
      · exact h1
      · rename_i fs2 hw
        have h2 := writeFile_mono fs1 fs2 _ q _ hw h1
        split
        · rename_i fs3 hw2
          exact writeFile_mono fs2 fs3 _ q _ hw2 h2
        · exact h2
  · exact h

theorem step2_ok (s : St) (h : (step2Providers s).ok = true) :
    s.ok = true ∧
      ((FS.lookup (step2Providers s).fs TinaProviderPath).isSome = true ∨
       (FS.lookup (step2Providers s).fs TinaDynamicProvider).isSome = true) := by
  revert h
  simp only [step2Providers, St.withFS]
  split
  · split
    · intro h; cases h
    · rename_i fs1 hm
      split
      · intro h; cases h
      · rename_i fs2 hw
        split
        · rename_i fs3 hw2
          intro h
          refine ⟨h, Or.inr ?_⟩
          rw [writeFile_self fs2 fs3 _ _ hw2]
          rfl
        · intro h; cases h
  · rename_i hcond
    intro h
    refine ⟨h, ?_⟩
    simp only [Bool.not_eq_true, Bool.and_eq_false_iff, Bool.not_eq_false] at hcond
    simpa [pathExists] using hcond

theorem step2_write (s : St)
    (h1 : pathExists s.fs TinaProviderPath = false)
    (h2 : pathExists s.fs TinaDynamicProvider = false)
    (h : (step2Providers s).ok = true) :
    FS.lookup (step2Providers s).fs TinaProviderPath = some (Entry.file TinaProvider) ∧
    FS.lookup (step2Providers s).fs TinaDynamicProvider =
      some (Entry.file TinaProviderDynamic) := by
  revert h
  simp only [step2Providers, h1, h2, Bool.not_false, Bool.and_self, if_pos, St.withFS]
  split
  · intro h; cases h
  · rename_i fs1 hm
    split
    · intro h; cases h
    · rename_i fs2 hw
      split
      · rename_i fs3 hw2
        intro _
        constructor
        · rw [writeFile_frame fs2 fs3 _ _ _ hw2 (by decide)]
          exact writeFile_self fs1 fs2 _ _ hw
        · exact writeFile_self fs2 fs3 _ _ hw2
      · intro h; cases h

/-! ## Lemmas about step 3 (application entry point) -/

theorem appPathTS_ne_appPath (u : Bool) : appPathTS u ≠ appPath u := by
  cases u <;> decide

theorem appPathWithExt_js (fs : FS) (u : Bool) (h : pathExists fs (appPath u) = true) :
    appPathWithExt fs u = appPath u := by
  simp only [appPathWithExt, appExtensionOf, h, if_true]
  cases u <;> rfl

theorem appPathWithExt_tsx (fs : FS) (u : Bool) (h : pathExists fs (appPath u) = false) :
    appPathWithExt fs u = appPathTS u := by
  simp only [appPathWithExt, appExtensionOf, h, Bool.false_eq_true, if_false]
  cases u <;> rfl

theorem step3_decline (u : Bool) (s : St)
    (hex : pathExists s.fs (appPath u) = true ∨ pathExists s.fs (appPathTS u) = true) :
    step3App u false s = St.addLog s (LogMsg.danger (msgManual u)) := by
  have hcond : (!pathExists s.fs (appPath u) && !pathExists s.fs (appPathTS u)) = false := by
    rcases hex with h | h <;> simp [h]
  simp [step3App, hcond]

theorem step3_frame (u o : Bool) (s : St) (q : Path) (hq : q ∉ step3Paths u) :
    FS.lookup (step3App u o s).fs q = FS.lookup s.fs q := by
  have hq1 : q ≠ appPath u := fun hEq => hq (by simp [step3Paths, hEq])
  have hq2 : q ≠ appPathTS u := fun hEq => hq (by simp [step3Paths, hEq])
  have hq3 : q ≠ appPathWithExt s.fs u := by
    rcases Bool.eq_false_or_eq_true (pathExists s.fs (appPath u)) with h | h
    · rw [appPathWithExt_js s.fs u h]; exact hq1
    · rw [appPathWithExt_tsx s.fs u h]; exact hq2
  simp only [step3App, St.withFS]
  split
  · split
    · rename_i fs1 hw
      simpa using writeFile_frame s.fs fs1 _ q _ hw hq1
    · rfl
  · split
    · split
      · rfl
      · rename_i fileContent hread
        split
        · rename_i fs1 hw
          simpa using writeFile_frame s.fs fs1 _ q _ hw hq3
        · rfl
    · rfl

theorem step3_mono (u o : Bool) (s : St) (q : Path)
    (h : (FS.lookup s.fs q).isSome = true) :
    (FS.lookup (step3App u o s).fs q).isSome = true := by
  simp only [step3App, St.withFS]
  split
  · split
    · rename_i fs1 hw
      simpa using writeFile_mono s.fs fs1 _ q _ hw h
    · exact h
  · split
    · split
      · exact h
      · rename_i fileContent hread
        split
        · rename_i fs1 hw
          simpa using writeFile_mono s.fs fs1 _ q _ hw h
        · exact h
    · exact h

theorem step3_ok (u o : Bool) (s : St) (h : (step3App u o s).ok = true) :
    s.ok = true ∧
      ((FS.lookup (step3App u o s).fs (appPath u)).isSome = true ∨
       (FS.lookup (step3App u o s).fs (appPathTS u)).isSome = true) := by
  by_cases hcond :
      (!pathExists s.fs (appPath u) && !pathExists s.fs (appPathTS u)) = true
  · revert h
    simp only [step3App, hcond, if_pos, St.withFS]
    split
    · rename_i fs1 hw
      intro h
      refine ⟨by simpa [St.addLog] using h, Or.inl ?_⟩
      simp only [St.addLog]
      rw [writeFile_self s.fs fs1 _ _ hw]
      rfl
    · intro h; simp [St.addLog] at h
  · have hex : (FS.lookup s.fs (appPath u)).isSome = true ∨
        (FS.lookup s.fs (appPathTS u)).isSome = true := by
      simp only [Bool.not_eq_true, Bool.and_eq_false_iff, Bool.not_eq_false] at hcond
      simpa [pathExists] using hcond
    have hok : s.ok = true := by
      revert h
      simp only [step3App, hcond, Bool.false_eq_true, if_false, St.withFS]
      split
      · split
        · intro h; simp [St.addLog] at h
        · split
          · intro h; simpa [St.addLog] using h
          · intro h; simp [St.addLog] at h
      · intro h; simpa [St.addLog] using h
    refine ⟨hok, ?_⟩
    rcases hex with hx | hx
    · exact Or.inl (step3_mono u o s _ hx)
    · exact Or.inr (step3_mono u o s _ hx)

theorem step3_overwrite_js (u : Bool) (s : St) (c : String)
    (hjs : FS.lookup s.fs (appPath u) = some (Entry.file c))
    (hok : (step3App u true s).ok = true) :
    FS.lookup (step3App u true s).fs (appPath u) =
      some (Entry.file (AppJsContent u (cssImports c))) ∧
    FS.lookup (step3App u true s).fs (appPathTS u) = FS.lookup s.fs (appPathTS u) := by
  have hpe : pathExists s.fs (appPath u) = true := by simp [pathExists, hjs]
  have hread : readFile s.fs (appPath u) = some c := by simp [readFile, hjs]
  have hwx : appPathWithExt s.fs u = appPath u := appPathWithExt_js s.fs u hpe
  revert hok
  simp only [step3App, hpe, Bool.not_true, Bool.false_and, Bool.false_eq_true, if_false,
    if_true, hread, St.withFS, hwx]
  split
  · rename_i fs1 hw
    intro _
    constructor
    · simp only [St.addLog]
      exact writeFile_self s.fs fs1 _ _ hw
    · simp only [St.addLog]
      exact writeFile_frame s.fs fs1 _ _ _ hw (appPathTS_ne_appPath u)
  · intro h; simp [St.addLog] at h

theorem step3_overwrite_tsx (u : Bool) (s : St) (c : String)
    (hjs : FS.lookup s.fs (appPath u) = none)
    (hts : FS.lookup s.fs (appPathTS u) = some (Entry.file c))
    (hok : (step3App u true s).ok = true) :
    FS.lookup (step3App u true s).fs (appPathTS u) =
      some (Entry.file (AppJsContent u (cssImports c))) := by
  have hpe : pathExists s.fs (appPath u) = false := by simp [pathExists, hjs]
  have hpe2 : pathExists s.fs (appPathTS u) = true := by simp [pathExists, hts]
  have hread : readFile s.fs (appPathTS u) = some c := by simp [readFile, hts]
  have hwx : appPathWithExt s.fs u = appPathTS u := appPathWithExt_tsx s.fs u hpe
  revert hok
  simp only [step3App, hpe, hpe2, Bool.not_true, Bool.not_false, Bool.true_and,
    Bool.false_eq_true, if_false, if_true, hread, St.withFS, hwx]
  split
  · rename_i fs1 hw
    intro _
    simp only [St.addLog]
    exact writeFile_self s.fs fs1 _ _ hw
  · intro h; simp [St.addLog] at h

/-! ## Lemmas about step 4 (demo listing page) -/

theorem demoLog_fs (s : St) : (demoLog s).fs = s.fs := by
  by_cases h : s.ok = true <;> simp [demoLog, h, St.addLog]

theorem demoLog_ok (s : St) : (demoLog s).ok = s.ok := by
  by_cases h : s.ok = true <;> simp [demoLog, h, St.addLog]

theorem step4_skip (u : Bool) (s : St)
    (h : pathExists s.fs (tinaBlogPagePathFile u) = true) (hok : s.ok = true) :
    step4Demo u s = St.addLog s (LogMsg.info msgContentDone) := by
  simp [step4Demo, demoWrite, h, demoLog, hok]

theorem demoWrite_frame (u : Bool) (s : St) (q : Path) (hq : q ∉ step4Paths u) :
    FS.lookup (demoWrite u s).fs q = FS.lookup s.fs q := by
  have hq1 : q ∉ nonemptyPrefixes (tinaBlogPagePath u) := by
    intro hmem; exact hq (by simp [step4Paths, List.mem_append, hmem])
  have hq2 : q ≠ tinaBlogPagePathFile u := by
    intro hEq; exact hq (by simp [step4Paths, hEq])
  simp only [demoWrite, St.withFS]
  split
  · rfl
  · split
    · rfl
    · rename_i fs1 hm
      split
      · rename_i fs2 hw
        simp only []
        rw [writeFile_frame fs1 fs2 _ q _ hw hq2]
        exact mkdirp_frame s.fs fs1 _ hm q hq1
      · simpa using mkdirp_frame s.fs fs1 _ hm q hq1

theorem step4_frame (u : Bool) (s : St) (q : Path) (hq : q ∉ step4Paths u) :
    FS.lookup (step4Demo u s).fs q = FS.lookup s.fs q := by
  rw [step4Demo, demoLog_fs]
  exact demoWrite_frame u s q hq

theorem step4_mono (u : Bool) (s : St) (q : Path)
    (h : (FS.lookup s.fs q).isSome = true) :
    (FS.lookup (step4Demo u s).fs q).isSome = true := by
  rw [step4Demo, demoLog_fs]
  simp only [demoWrite, St.withFS]
  split
  · exact h
  · split
    · exact h
    · rename_i fs1 hm
      have h1 : (FS.lookup fs1 q).isSome = true := by
        rcases he : FS.lookup s.fs q with _ | e
        · rw [he] at h; cases h
        · rw [mkdirp_mono s.fs fs1 _ hm q e he]; rfl
      split
      · rename_i fs2 hw
        simpa using writeFile_mono fs1 fs2 _ q _ hw h1
      · exact h1

theorem step4_ok (u : Bool) (s : St) (h : (step4Demo u s).ok = true) :
    s.ok = true ∧ pathExists (step4Demo u s).fs (tinaBlogPagePathFile u) = true := by
  rw [step4Demo, demoLog_ok] at h
  rw [step4Demo, demoLog_fs]
  revert h
  simp only [demoWrite, St.withFS]
  split
  · rename_i hex
    intro h
    exact ⟨h, hex⟩
  · split
    · intro h; cases h
    · rename_i fs1 hm
      split
      · rename_i fs2 hw
        intro h
        refine ⟨h, ?_⟩
        simp only [pathExists]
        rw [writeFile_self fs1 fs2 _ _ hw]
        rfl
      · intro h; cases h

/-! ## Lemmas about step 5 (script manifest) -/

theorem step5_frame (s : St) (q : Path) (hq : q ≠ packagePath) :
    FS.lookup (step5Package s).fs q = FS.lookup s.fs q := by
  simp only [step5Package, St.withFS]
  split
  · rfl
  · split
    · rfl
    · rename_i pack hparse
      split
      · rename_i fs1 hw
        simpa using writeFile_frame s.fs fs1 _ q _ hw hq
      · rfl

theorem step5_mono (s : St) (q : Path)
    (h : (FS.lookup s.fs q).isSome = true) :
    (FS.lookup (step5Package s).fs q).isSome = true := by
  simp only [step5Package, St.withFS]
  split
  · exact h
  · split
    · exact h
    · rename_i pack hparse
      split
      · rename_i fs1 hw
        simpa using writeFile_mono s.fs fs1 _ q _ hw h
      · exact h

theorem step5_char (s : St) (h : (step5Package s).ok = true) :
    s.ok = true ∧ ∃ c pack, readFile s.fs packagePath = some c ∧
      Json.parse c = some pack ∧
      (step5Package s).fs =
        FS.set s.fs packagePath
          (Entry.file (stringifyJson (Json.obj (mergedPackFields pack)))) ∧
      (step5Package s).log = s.log := by
  revert h
  simp only [step5Package, St.withFS]
  split
  · intro h; cases h
  · rename_i c hread
    split
    · intro h; cases h
    · rename_i pack hparse
      split
      · rename_i fs1 hw
        intro h
        exact ⟨h, c, pack, hread, hparse, writeFile_eq s.fs fs1 _ _ hw ▸ rfl, rfl⟩
      · intro h; cases h

/-! ## Lemmas about step 6 (admin page) -/

theorem adminPath_dropLast (u : Bool) : (adminPath u).dropLast = pagesPath u := by
  cases u <;> rfl

theorem step6_collision (u : Bool) (s : St)
    (h : pathExists s.fs (pagesPath u ++ ["admin"]) = true) :
    step6Admin u s = St.addLog s (LogMsg.warn msgAdminExists) := by
  simp [step6Admin, h]

theorem step6_frame (u : Bool) (s : St) (q : Path) (hq : q ∉ step6Paths u) :
    FS.lookup (step6Admin u s).fs q = FS.lookup s.fs q := by
  have hq1 : q ∉ nonemptyPrefixes (pagesPath u) := by
    intro hmem; exact hq (by simp [step6Paths, List.mem_append, hmem])
  have hq2 : q ≠ adminPath u := by
    intro hEq; exact hq (by simp [step6Paths, hEq])
  simp only [step6Admin, St.withFS]
  split
  · rfl
  · split
    · rename_i fs1 hw
      simp only [St.addLog]
      have := outputFile_frame s.fs fs1 (adminPath u) q adminPage hw
        (by rw [adminPath_dropLast]; exact hq1) hq2
      simpa using this
    · rfl

theorem step6_mono (u : Bool) (s : St) (q : Path)
    (h : (FS.lookup s.fs q).isSome = true) :
    (FS.lookup (step6Admin u s).fs q).isSome = true := by
  simp only [step6Admin, St.withFS]
  split
  · exact h
  · split
    · rename_i fs1 hw
      simpa using outputFile_mono s.fs fs1 _ q _ hw h
    · exact h

theorem step6_ok (u : Bool) (s : St) (h : (step6Admin u s).ok = true) :
    s.ok = true := by
  revert h
  simp only [step6Admin, St.withFS]
  split
  · intro h; simpa [St.addLog] using h
  · split
    · intro h; exact h
    · intro h; cases h

theorem step6_write (u : Bool) (s : St)
    (h : pathExists s.fs (pagesPath u ++ ["admin"]) = false)
    (hok : (step6Admin u s).ok = true) :
    FS.lookup (step6Admin u s).fs (adminPath u) = some (Entry.file adminPage) ∧
    PrefixesDir (step6Admin u s).fs (pagesPath u) ∧
    (step6Admin u s).log = s.log := by
  revert hok
  simp only [step6Admin, h, Bool.false_eq_true, if_false, St.withFS]
  split
  · rename_i fs1 hw
    intro _
    refine ⟨outputFile_self s.fs fs1 _ _ hw, ?_, rfl⟩
    have := outputFile_dirs s.fs fs1 (adminPath u) adminPage hw
    rwa [adminPath_dropLast] at this
  · intro hcontra; cases hcontra

theorem step6_noop (u : Bool) (s : St)
    (h : pathExists s.fs (pagesPath u ++ ["admin"]) = false)
    (ha : FS.lookup s.fs (adminPath u) = some (Entry.file adminPage))
    (hd : PrefixesDir s.fs (pagesPath u)) :
    step6Admin u s = s := by
  have hpages : FS.lookup s.fs (pagesPath u) = some Entry.dir := by
    refine hd (pagesPath u) ?_ (List.prefix_refl _)
    cases u <;> decide
  have hmk : mkdirp s.fs (adminPath u).dropLast = some s.fs := by
    rw [adminPath_dropLast]; exact mkdirp_noop s.fs _ hd
  have hpar : parentOk s.fs (adminPath u) = true := by
    simp [parentOk, adminPath_dropLast, hpages]
  have hout : outputFile s.fs (adminPath u) adminPage = some s.fs := by
    simp only [outputFile, hmk]
    exact writeFile_noop s.fs _ _ hpar ha
  simp [step6Admin, h, hout, St.withFS]

/-! ## Lemmas about the whole scaffold stage -/

theorem tinaSetup_eq (fs : FS) (o : Bool) :
    tinaSetup fs o =
      andThen (andThen (andThen (andThen (andThen
        (step1Content { fs := fs, log := [], ok := true })
        step2Providers) (step3App (pathExists fs ["src"]) o))
        (step4Demo (pathExists fs ["src"]))) step5Package)
        (step6Admin (pathExists fs ["src"])) := rfl

theorem tinaSetup_frame (fs : FS) (o : Bool) (q : Path)
    (hq : q ∉ writePaths (pathExists fs ["src"])) :
    FS.lookup (tinaSetup fs o).fs q = FS.lookup fs q := by
  have h1 : q ∉ step1Paths := fun hm => hq (by simp [writePaths, List.mem_append, hm])
  have h2 : q ∉ step2Paths := fun hm => hq (by simp [writePaths, List.mem_append, hm])
  have h3 : q ∉ step3Paths (pathExists fs ["src"]) := fun hm =>
    hq (by simp [writePaths, List.mem_append, hm])
  have h4 : q ∉ step4Paths (pathExists fs ["src"]) := fun hm =>
    hq (by simp [writePaths, List.mem_append, hm])
  have h5 : q ≠ packagePath := fun hm =>
    hq (by simp [writePaths, step5Paths, List.mem_append, hm])
  have h6 : q ∉ step6Paths (pathExists fs ["src"]) := fun hm =>
    hq (by simp [writePaths, List.mem_append, hm])
  rw [tinaSetup_eq]
  rw [andThen_frame _ _ _ (fun t => step6_frame _ t q h6)]
  rw [andThen_frame _ _ _ (fun t => step5_frame t q h5)]
  rw [andThen_frame _ _ _ (fun t => step4_frame _ t q h4)]
  rw [andThen_frame _ _ _ (fun t => step3_frame _ o t q h3)]
  rw [andThen_frame _ _ _ (fun t => step2_frame t q h2)]
  exact step1_frame _ q h1

theorem tinaSetup_mono (fs : FS) (o : Bool) (q : Path)
    (h : (FS.lookup fs q).isSome = true) :
    (FS.lookup (tinaSetup fs o).fs q).isSome = true := by
  rw [tinaSetup_eq]
  refine andThen_mono _ _ q (fun t => step6_mono _ t q) ?_
  refine andThen_mono _ _ q (fun t => step5_mono t q) ?_
  refine andThen_mono _ _ q (fun t => step4_mono _ t q) ?_
  refine andThen_mono _ _ q (fun t => step3_mono _ o t q) ?_
  refine andThen_mono _ _ q (fun t => step2_mono t q) ?_
  exact step1_mono _ q h

theorem tinaSetup_ok_decomp (fs : FS) (o : Bool) (h : (tinaSetup fs o).ok = true) :
    (step1Content { fs := fs, log := [], ok := true }).ok = true ∧
    (step2Providers (step1Content { fs := fs, log := [], ok := true })).ok = true ∧
    (step3App (pathExists fs ["src"]) o
      (step2Providers (step1Content { fs := fs, log := [], ok := true }))).ok = true ∧
    (step4Demo (pathExists fs ["src"]) (step3App (pathExists fs ["src"]) o
      (step2Providers (step1Content { fs := fs, log := [], ok := true })))).ok = true ∧
    (step5Package (step4Demo (pathExists fs ["src"]) (step3App (pathExists fs ["src"]) o
      (step2Providers (step1Content { fs := fs, log := [], ok := true }))))).ok = true ∧
    tinaSetup fs o =
      step6Admin (pathExists fs ["src"])
        (step5Package (step4Demo (pathExists fs ["src"]) (step3App (pathExists fs ["src"]) o
          (step2Providers (step1Content { fs := fs, log := [], ok := true }))))) := by
  rw [tinaSetup_eq] at h
  have hX5 := ok_of_andThen _ _ h
  have hX4 := ok_of_andThen _ _ hX5
  have hX3 := ok_of_andThen _ _ hX4
  have hX2 := ok_of_andThen _ _ hX3
  have hs1 := ok_of_andThen _ _ hX2
  rw [andThen_of_ok _ _ hs1] at hX2 hX3 hX4 hX5
  rw [andThen_of_ok _ _ hX2] at hX3 hX4 hX5
  rw [andThen_of_ok _ _ hX3] at hX4 hX5
  rw [andThen_of_ok _ _ hX4] at hX5
  refine ⟨hs1, hX2, hX3, hX4, hX5, ?_⟩
  rw [tinaSetup_eq, andThen_of_ok _ _ hs1, andThen_of_ok _ _ hX2,
    andThen_of_ok _ _ hX3, andThen_of_ok _ _ hX4, andThen_of_ok _ _ hX5]

/-! ## Lemmas about the JSON embedding -/

theorem String.mk_data_self (s : String) : String.mk s.data = s := rfl

theorem skipWs_cons_of_ws (c : Char) (l : List Char) (h : isWs c = true) :
    skipWs (c :: l) = skipWs l := by simp [skipWs, h]

theorem skipWs_cons_of_not_ws (c : Char) (l : List Char) (h : isWs c = false) :
    skipWs (c :: l) = c :: l := by simp [skipWs, h]

theorem skipWs_append_of_allWs (pre : List Char) (l : List Char)
    (h : ∀ c ∈ pre, isWs c = true) : skipWs (pre ++ l) = skipWs l := by
  induction pre with
  | nil => rfl
  | cons c pre ih =>
    rw [List.cons_append, skipWs_cons_of_ws c _ (h c (by simp))]
    exact ih (fun c hc => h c (by simp [hc]))

theorem allWs_indentChars (n : Nat) : ∀ c ∈ indentChars n, isWs c = true := by
  intro c hc
  rw [indentChars] at hc
  rw [List.eq_of_mem_replicate hc]
  rfl

theorem parseStrAux_escStr (s : List Char) (rest : List Char) :
    parseStrAux (escStr s ++ '\x22' :: rest) = some (s, rest) := by
  induction s with
  | nil => unfold parseStrAux escStr; simp
  | cons c s ih =>
    by_cases h1 : c = '\x22'
    · subst h1
      show parseStrAux (('\\' :: ['\x22']) ++ escStr s ++ '\x22' :: rest) = _
      unfold parseStrAux
      simp [ih]
    · by_cases h2 : c = '\\'
      · subst h2
        show parseStrAux (('\\' :: ['\\']) ++ escStr s ++ '\x22' :: rest) = _
        unfold parseStrAux
        simp [ih]
      · show parseStrAux (escChar c ++ escStr s ++ '\x22' :: rest) = _
        simp only [escChar, if_neg h1, if_neg h2]
        unfold parseStrAux
        simp [h1, h2, ih]

theorem jsize_pos (j : Json) : 1 ≤ jsize j := by
  cases j <;> simp [jsize]

theorem jsizeList_pos (l : List Json) : 1 ≤ jsizeList l := by
  cases l with
  | nil => simp [jsizeList]
  | cons j rest => show 1 ≤ 1 + jsize j + jsizeList rest; omega

theorem jsizeFields_pos (l : List (String × Json)) : 1 ≤ jsizeFields l := by
  cases l with
  | nil => simp [jsizeFields]
  | cons f rest => obtain ⟨k, v⟩ := f; simp [jsizeFields]; omega

theorem stringifyVal_head (j : Json) (ind : Nat) :
    ∃ c t, stringifyVal j ind = c :: t ∧ isWs c = false ∧
      c ≠ ']' ∧ c ≠ '\x7d' ∧ c ≠ ',' ∧ c ≠ ':' := by
  cases j with
  | str s => exact ⟨'\x22', _, rfl, by decide, by decide, by decide, by decide, by decide⟩
  | bool b => cases b with
    | true => exact ⟨'t', _, rfl, by decide, by decide, by decide, by decide, by decide⟩
    | false => exact ⟨'f', _, rfl, by decide, by decide, by decide, by decide, by decide⟩
  | null => exact ⟨'n', _, rfl, by decide, by decide, by decide, by decide, by decide⟩
  | arr l => cases l with
    | nil => exact ⟨'[', _, rfl, by decide, by decide, by decide, by decide, by decide⟩
    | cons j rest =>
      exact ⟨'[', _, rfl, by decide, by decide, by decide, by decide, by decide⟩
  | obj l => cases l with
    | nil => exact ⟨'\x7b', _, rfl, by decide, by decide, by decide, by decide, by decide⟩
    | cons f rest =>
      exact ⟨'\x7b', _, rfl, by decide, by decide, by decide, by decide, by decide⟩

theorem skipWs_indent (n : Nat) (l : List Char) :
    skipWs (indentChars n ++ l) = skipWs l :=
  skipWs_append_of_allWs _ _ (allWs_indentChars n)

theorem skipWs_replicate_space (n : Nat) (l : List Char) :
    skipWs (List.replicate n ' ' ++ l) = skipWs l := by
  refine skipWs_append_of_allWs _ _ ?_
  intro c hc
  rw [List.eq_of_mem_replicate hc]
  rfl

theorem skipWs_stringifyVal (j : Json) (ind : Nat) (l : List Char) :
    skipWs (stringifyVal j ind ++ l) = stringifyVal j ind ++ l := by
  obtain ⟨c0, t0, hh, hnws, _, _, _, _⟩ := stringifyVal_head j ind
  rw [hh, List.cons_append, skipWs_cons_of_not_ws _ _ hnws]

theorem stringify_head_ne_rbracket (j : Json) (ind : Nat) (l : List Char) :
    ¬((stringifyVal j ind ++ l).head? = some ']') := by
  obtain ⟨c0, t0, hh, _, hne, _, _, _⟩ := stringifyVal_head j ind
  rw [hh]
  simp [hne]

theorem stringify_head_ne_rbrace (j : Json) (ind : Nat) (l : List Char) :
    ¬((stringifyVal j ind ++ l).head? = some '\x7d') := by
  obtain ⟨c0, t0, hh, _, _, hne, _, _⟩ := stringifyVal_head j ind
  rw [hh]
  simp [hne]

theorem allWs_nl_indent (n : Nat) : ∀ c ∈ ('\n' :: indentChars n), isWs c = true := by
  intro c hc
  rcases List.mem_cons.mp hc with rfl | hc
  · rfl
  · exact allWs_indentChars _ c hc

theorem parse_roundtrip : ∀ fuel : Nat,
    (∀ j ind pre rest, (∀ c ∈ pre, isWs c = true) → jsize j ≤ fuel →
      parseVal fuel (pre ++ (stringifyVal j ind ++ rest)) = some (j, rest)) ∧
    (∀ l ind pre rest, (∀ c ∈ pre, isWs c = true) → jsizeList l ≤ fuel →
      parseItems fuel (stringifyItems l ind ++ (pre ++ ']' :: rest)) = some (l, rest)) ∧
    (∀ k v ind pre rest, (∀ c ∈ pre, isWs c = true) → jsize v < fuel →
      parseField fuel (pre ++ (stringifyField (k, v) ind ++ rest)) = some ((k, v), rest)) ∧
    (∀ l ind pre rest, (∀ c ∈ pre, isWs c = true) → jsizeFields l ≤ fuel →
      parseFields fuel (stringifyFields l ind ++ (pre ++ '\x7d' :: rest)) = some (l, rest)) := by
  intro fuel
  induction fuel with
  | zero =>
    refine ⟨?_, ?_, ?_, ?_⟩
    · intro j _ _ _ _ hsz; have := jsize_pos j; omega
    · intro l _ _ _ _ hsz; have := jsizeList_pos l; omega
    · intro _ v _ _ _ _ hsz; omega
    · intro l _ _ _ _ hsz; have := jsizeFields_pos l; omega
  | succ fuel ih =>
    obtain ⟨ihP, ihQ, ihR, ihS⟩ := ih
    refine ⟨?_, ?_, ?_, ?_⟩
    · -- values
      intro j ind pre rest hpre hsz
      cases j with
      | null => simp [parseVal, stringifyVal, skipWs_append_of_allWs pre _ hpre, skipWs, isWs]
      | bool b =>
        cases b <;>
          simp [parseVal, stringifyVal, skipWs_append_of_allWs pre _ hpre, skipWs, isWs]
      | str s =>
        have hps := parseStrAux_escStr s.data rest
        simp [parseVal, stringifyVal, skipWs_append_of_allWs pre _ hpre, skipWs, isWs, hps]
      | arr l =>
        cases l with
        | nil => simp [parseVal, stringifyVal, skipWs_append_of_allWs pre _ hpre, skipWs, isWs]
        | cons j l =>
          rw [show jsize (Json.arr (j :: l)) = 1 + (1 + jsize j + jsizeList l) from rfl] at hsz
          have hj : jsize j ≤ fuel := by have h1 := jsizeList_pos l; omega
          have hl : jsizeList l ≤ fuel := by have h1 := jsize_pos j; omega
          have hv := ihP j (ind + 1) []
            (stringifyItems l (ind + 1) ++ ('\n' :: (indentChars ind ++ (']' :: rest))))
            (by intro c hc; cases hc) hj
          have hi := ihQ l (ind + 1) ('\n' :: indentChars ind) rest
            (allWs_nl_indent ind) hl
          simp only [List.nil_append] at hv
          simp only [parseVal, stringifyVal, skipWs_append_of_allWs pre _ hpre, skipWs, isWs,
            List.cons_append, List.append_assoc, List.singleton_append, skipWs_indent,
            skipWs_stringifyVal] at hv hi ⊢
          simp [hv, hi, stringify_head_ne_rbracket, skipWs, isWs, skipWs_indent,
            skipWs_stringifyVal, skipWs_replicate_space]
          obtain ⟨c0, t0, hh, _, hne, _, _, _⟩ := stringifyVal_head j (ind + 1)
          rw [hh]
          simp [hne]
      | obj l =>
        cases l with
        | nil => simp [parseVal, stringifyVal, skipWs_append_of_allWs pre _ hpre, skipWs, isWs]
        | cons f l =>
          obtain ⟨k, v⟩ := f
          rw [show jsize (Json.obj ((k, v) :: l)) = 1 + (1 + jsize v + jsizeFields l) from
            rfl] at hsz
          have hv : jsize v < fuel + 1 := by have h1 := jsizeFields_pos l; omega
          have hl : jsizeFields l ≤ fuel := by have h1 := jsize_pos v; omega
          have hf := ihR k v (ind + 1) []
            (stringifyFields l (ind + 1) ++ ('\n' :: (indentChars ind ++ ('\x7d' :: rest))))
            (by intro c hc; cases hc) (by omega)
          have hs := ihS l (ind + 1) ('\n' :: indentChars ind) rest
            (allWs_nl_indent ind) hl
          simp only [List.nil_append] at hf
          simp only [parseVal, stringifyVal, stringifyField,
            skipWs_append_of_allWs pre _ hpre, skipWs, isWs,
            List.cons_append, List.append_assoc, List.singleton_append, skipWs_indent,
            skipWs_stringifyVal] at hf hs ⊢
          simp [hf, hs, skipWs, isWs, skipWs_indent, skipWs_stringifyVal,
            skipWs_replicate_space]
    · -- array items
      intro l ind pre rest hpre hsz
      cases l with
      | nil => simp [parseItems, stringifyItems, skipWs_append_of_allWs pre _ hpre, skipWs, isWs]
      | cons j l =>
        rw [show jsizeList (j :: l) = 1 + jsize j + jsizeList l from rfl] at hsz
        have hj : jsize j ≤ fuel := by have h1 := jsizeList_pos l; omega
        have hl : jsizeList l ≤ fuel := by have h1 := jsize_pos j; omega
        have hv := ihP j ind ('\n' :: indentChars ind)
          (stringifyItems l ind ++ (pre ++ ']' :: rest)) (allWs_nl_indent ind) hj
        have hi := ihQ l ind pre rest hpre hl
        simp only [parseItems, stringifyItems, skipWs, isWs, List.cons_append,
          List.append_assoc, List.singleton_append, skipWs_indent, skipWs_stringifyVal]
          at hv hi ⊢
        simp [hv, hi, skipWs, isWs, skipWs_indent, skipWs_stringifyVal,
          skipWs_replicate_space]
    · -- one field
      intro k v ind pre rest hpre hsz
      have hps := parseStrAux_escStr k.data (':' :: ' ' :: (stringifyVal v ind ++ rest))
      have hv := ihP v ind [' '] rest (by intro c hc; simp at hc; subst hc; rfl) (by omega)
      simp only [List.cons_append, List.nil_append] at hv
      simp only [parseField, stringifyField, skipWs_append_of_allWs pre _ hpre, skipWs, isWs,
        List.cons_append, List.append_assoc, List.singleton_append] at hps hv ⊢
      simp [hps, hv, skipWs, isWs, String.mk_data_self, skipWs_replicate_space]
    · -- remaining fields
      intro l ind pre rest hpre hsz
      cases l with
      | nil =>
        simp [parseFields, stringifyFields, skipWs_append_of_allWs pre _ hpre, skipWs, isWs]
      | cons f l =>
        obtain ⟨k, v⟩ := f
        rw [show jsizeFields ((k, v) :: l) = 1 + jsize v + jsizeFields l from rfl] at hsz
        have hjv : jsize v < fuel + 1 := by have h1 := jsizeFields_pos l; omega
        have hl : jsizeFields l ≤ fuel := by have h1 := jsize_pos v; omega
        have hf := ihR k v ind ('\n' :: indentChars ind)
          (stringifyFields l ind ++ (pre ++ '\x7d' :: rest)) (allWs_nl_indent ind)
          (by have h1 := jsizeFields_pos l; omega)
        have hs := ihS l ind pre rest hpre hl
        simp only [parseFields, stringifyFields, stringifyField, skipWs, isWs,
          List.cons_append, List.append_assoc, List.singleton_append, skipWs_indent]
          at hf hs ⊢
        simp [hf, hs, skipWs, isWs, skipWs_indent, skipWs_replicate_space]


theorem jsize_le_length : ∀ n : Nat,
    (∀ j ind, jsize j ≤ n → jsize j ≤ (stringifyVal j ind).length) ∧
    (∀ l ind, jsizeList l ≤ n → jsizeList l ≤ (stringifyItems l ind).length + 1) ∧
    (∀ k v ind, jsize v < n → jsize v + 1 ≤ (stringifyField (k, v) ind).length) ∧
    (∀ l ind, jsizeFields l ≤ n → jsizeFields l ≤ (stringifyFields l ind).length + 1) := by
  intro n
  induction n with
  | zero =>
    refine ⟨?_, ?_, ?_, ?_⟩
    · intro j _ h; have := jsize_pos j; omega
    · intro l _ h; have := jsizeList_pos l; omega
    · intro _ v _ h; omega
    · intro l _ h; have := jsizeFields_pos l; omega
  | succ n ih =>
    obtain ⟨ihP, ihQ, ihR, ihS⟩ := ih
    refine ⟨?_, ?_, ?_, ?_⟩
    · intro j ind hsz
      cases j with
      | str s => simp [jsize, stringifyVal]
      | bool b => cases b <;> simp [jsize, stringifyVal]
      | null => simp [jsize, stringifyVal]
      | arr l =>
        cases l with
        | nil => simp [jsize, jsizeList, stringifyVal]
        | cons j l =>
          have e : jsize (Json.arr (j :: l)) = 1 + (1 + jsize j + jsizeList l) := rfl
          rw [e] at hsz ⊢
          have h1 := jsizeList_pos l
          have h2 := jsize_pos j
          have hj := ihP j (ind + 1) (by omega)
          have hl := ihQ l (ind + 1) (by omega)
          simp [stringifyVal, List.length_append]
          omega
      | obj l =>
        cases l with
        | nil => simp [jsize, jsizeFields, stringifyVal]
        | cons f l =>
          obtain ⟨k, v⟩ := f
          have e : jsize (Json.obj ((k, v) :: l)) = 1 + (1 + jsize v + jsizeFields l) := rfl
          rw [e] at hsz ⊢
          have h1 := jsizeFields_pos l
          have h2 := jsize_pos v
          have hf := ihR k v (ind + 1) (by omega)
          have hl := ihS l (ind + 1) (by omega)
          simp [stringifyVal, List.length_append]
          omega
    · intro l ind hsz
      cases l with
      | nil => simp [jsizeList, stringifyItems]
      | cons j l =>
        rw [show jsizeList (j :: l) = 1 + jsize j + jsizeList l from rfl] at hsz ⊢
        have h1 := jsizeList_pos l
        have h2 := jsize_pos j
        have hj := ihP j ind (by omega)
        have hl := ihQ l ind (by omega)
        simp [stringifyItems, List.length_append]
        omega
    · intro k v ind hsz
      have hv := ihP v ind (by omega)
      simp [stringifyField, List.length_append]
      omega
    · intro l ind hsz
      cases l with
      | nil => simp [jsizeFields, stringifyFields]
      | cons f l =>
        obtain ⟨k, v⟩ := f
        rw [show jsizeFields ((k, v) :: l) = 1 + jsize v + jsizeFields l from rfl] at hsz ⊢
        have h1 := jsizeFields_pos l
        have h2 := jsize_pos v
        have hf := ihR k v ind (by omega)
        have hl := ihS l ind (by omega)
        simp [stringifyFields, stringifyField, List.length_append] at hf ⊢
        omega

theorem parse_stringify (j : Json) : Json.parse (stringifyJson j) = some j := by
  have hlen : jsize j ≤ (stringifyVal j 0).length :=
    (jsize_le_length (jsize j)).1 j 0 (le_refl _)
  have h := (parse_roundtrip ((stringifyVal j 0).length + 1)).1 j 0 [] []
    (by intro c hc; cases hc) (by omega)
  simp only [List.nil_append, List.append_nil] at h
  simp [Json.parse, stringifyJson, h, skipWs]


/-! ## Lemmas about the script-manifest merge -/

theorem lookupField_setField_self (l : List (String × Json)) (k : String) (v : Json) :
    lookupField (setField l k v) k = some v := by
  induction l with
  | nil => simp [setField, lookupField]
  | cons f rest ih =>
    obtain ⟨k0, v0⟩ := f
    by_cases h : k0 = k
    · subst h; simp [setField, lookupField]
    · simp [setField, lookupField, h, ih]

theorem lookupField_setField_ne (l : List (String × Json)) (k k' : String) (v : Json)
    (h : k' ≠ k) : lookupField (setField l k v) k' = lookupField l k' := by
  induction l with
  | nil => simp [setField, lookupField, (Ne.symm h : k ≠ k')]
  | cons f rest ih =>
    obtain ⟨k0, v0⟩ := f
    by_cases h0 : k0 = k
    · subst h0
      simp only [setField, if_pos rfl, lookupField]
      rw [if_neg (fun hh => h hh.symm), if_neg (fun hh => h hh.symm)]
    · simp only [setField, if_neg h0, lookupField]
      by_cases h1 : k0 = k'
      · simp [h1]
      · simp [h1, ih]

theorem setField_setField_same (l : List (String × Json)) (k : String) (v v' : Json) :
    setField (setField l k v) k v' = setField l k v' := by
  induction l with
  | nil => simp [setField]
  | cons f rest ih =>
    obtain ⟨k0, v0⟩ := f
    by_cases h : k0 = k
    · subst h; simp [setField]
    · simp [setField, h, ih]

theorem setField_eq_of_lookup (l : List (String × Json)) (k : String) (v : Json)
    (h : lookupField l k = some v) : setField l k v = l := by
  induction l with
  | nil => simp [lookupField] at h
  | cons f rest ih =>
    obtain ⟨k0, v0⟩ := f
    by_cases h0 : k0 = k
    · subst h0
      have h' : v0 = v := by simpa [lookupField] using h
      simp [setField, h']
    · simp only [lookupField, if_neg h0] at h
      simp [setField, h0, ih h]

theorem lookupField_extendNextScripts_ne (s : List (String × Json)) (k : String)
    (h1 : k ≠ "dev") (h2 : k ≠ "build") (h3 : k ≠ "generate") :
    lookupField (extendNextScripts s) k = lookupField s k := by
  simp only [extendNextScripts, injectedScripts, List.foldl]
  rw [lookupField_setField_ne _ _ _ _ h3, lookupField_setField_ne _ _ _ _ h2,
    lookupField_setField_ne _ _ _ _ h1]

theorem lookupField_extendNextScripts_self (s : List (String × Json)) :
    ∀ kv ∈ injectedScripts,
      lookupField (extendNextScripts s) kv.1 = some (Json.str kv.2) := by
  intro kv hkv
  simp only [injectedScripts, List.mem_cons, List.not_mem_nil, or_false] at hkv
  rcases hkv with rfl | rfl | rfl
  · simp only [extendNextScripts, injectedScripts, List.foldl]
    rw [lookupField_setField_ne _ _ _ _ (by decide),
      lookupField_setField_ne _ _ _ _ (by decide), lookupField_setField_self]
  · simp only [extendNextScripts, injectedScripts, List.foldl]
    rw [lookupField_setField_ne _ _ _ _ (by decide), lookupField_setField_self]
  · simp only [extendNextScripts, injectedScripts, List.foldl]
    rw [lookupField_setField_self]

theorem extendNextScripts_idem (s : List (String × Json)) :
    extendNextScripts (extendNextScripts s) = extendNextScripts s := by
  have hd := lookupField_extendNextScripts_self s ("dev", "tinacms server:start -c next dev")
    (by simp [injectedScripts])
  have hb := lookupField_extendNextScripts_self s
    ("build", "tinacms server:start -c next build") (by simp [injectedScripts])
  have hg := lookupField_extendNextScripts_self s ("generate", "tinacms generate")
    (by simp [injectedScripts])
  conv_lhs => rw [extendNextScripts, injectedScripts]
  simp only [List.foldl]
  rw [setField_eq_of_lookup _ _ _ hd, setField_eq_of_lookup _ _ _ hb,
    setField_eq_of_lookup _ _ _ hg]

theorem mergedPackFields_idem (pack : Json) : MergeStable (mergedPackFields pack) := by
  rw [MergeStable]
  have hF : packFields (Json.obj (mergedPackFields pack)) = mergedPackFields pack := rfl
  rw [mergedPackFields, hF]
  have hS : oldScriptsOf (mergedPackFields pack) =
      extendNextScripts (oldScriptsOf (packFields pack)) := by
    rw [oldScriptsOf, mergedPackFields, lookupField_setField_self]
  rw [hS, extendNextScripts_idem, mergedPackFields, setField_setField_same]

theorem step5_stable (s : St) (f : List (String × Json))
    (hp : FS.lookup s.fs packagePath = some (Entry.file (stringifyJson (Json.obj f))))
    (hst : MergeStable f) : step5Package s = s := by
  have hread : readFile s.fs packagePath = some (stringifyJson (Json.obj f)) := by
    simp [readFile, hp]
  have hparse : Json.parse (stringifyJson (Json.obj f)) = some (Json.obj f) :=
    parse_stringify _
  have hw : writeFile s.fs packagePath
      (stringifyJson (Json.obj (mergedPackFields (Json.obj f)))) = some s.fs := by
    rw [MergeStable] at hst
    rw [hst]
    exact writeFile_noop s.fs _ _ (by rfl) hp
  simp [step5Package, hread, hparse, hw, St.withFS]


/-! ## The scaffolded state and idempotence -/

theorem packagePath_not_mem_step6 (u : Bool) : packagePath ∉ step6Paths u := by
  cases u <;> decide

theorem src_not_mem_writePaths_false : (["src"] : Path) ∉ writePaths false := by
  decide

theorem tinaSetup_src (fs : FS) (o : Bool) :
    pathExists (tinaSetup fs o).fs ["src"] = pathExists fs ["src"] := by
  rcases Bool.eq_false_or_eq_true (pathExists fs ["src"]) with h | h
  · rw [h]
    exact tinaSetup_mono fs o ["src"] h
  · rw [h, pathExists, tinaSetup_frame fs o ["src"] (by rw [h]; exact src_not_mem_writePaths_false)]
    exact h

theorem tinaSetup_noop (fs : FS) (hsc : Scaffolded (pathExists fs ["src"]) fs) :
    (tinaSetup fs false).fs = fs ∧ (tinaSetup fs false).ok = true := by
  obtain ⟨h1, h2, h3, h4, ⟨f, hpkg, hst⟩, h6⟩ := hsc
  have e1 : step1Content { fs := fs, log := [], ok := true } =
      { fs := fs, log := [], ok := true } := step1_skip _ h1
  have e2 : step2Providers { fs := fs, log := [], ok := true } =
      { fs := fs, log := [], ok := true } := step2_skip _ h2
  have e3 : step3App (pathExists fs ["src"]) false { fs := fs, log := [], ok := true } =
      { fs := fs, log := [LogMsg.danger (msgManual (pathExists fs ["src"]))], ok := true } :=
    step3_decline _ _ h3
  have e4 : step4Demo (pathExists fs ["src"])
      { fs := fs, log := [LogMsg.danger (msgManual (pathExists fs ["src"]))], ok := true } =
      { fs := fs,
        log := [LogMsg.danger (msgManual (pathExists fs ["src"])), LogMsg.info msgContentDone],
        ok := true } :=
    step4_skip _ _ h4 rfl
  have e5 : step5Package
      { fs := fs,
        log := [LogMsg.danger (msgManual (pathExists fs ["src"])), LogMsg.info msgContentDone],
        ok := true } =
      { fs := fs,
        log := [LogMsg.danger (msgManual (pathExists fs ["src"])), LogMsg.info msgContentDone],
        ok := true } :=
    step5_stable _ f hpkg hst
  rw [tinaSetup_eq, e1]
  rw [andThen_of_ok { fs := fs, log := [], ok := true } step2Providers rfl, e2]
  rw [andThen_of_ok { fs := fs, log := [], ok := true }
    (step3App (pathExists fs ["src"]) false) rfl, e3]
  rw [andThen_of_ok
    { fs := fs, log := [LogMsg.danger (msgManual (pathExists fs ["src"]))], ok := true }
    (step4Demo (pathExists fs ["src"])) rfl, e4]
  rw [andThen_of_ok
    { fs := fs,
      log := [LogMsg.danger (msgManual (pathExists fs ["src"])), LogMsg.info msgContentDone],
      ok := true } step5Package rfl, e5]
  rw [andThen_of_ok
    { fs := fs,
      log := [LogMsg.danger (msgManual (pathExists fs ["src"])), LogMsg.info msgContentDone],
      ok := true } (step6Admin (pathExists fs ["src"])) rfl]
  rcases Bool.eq_false_or_eq_true
      (pathExists fs (pagesPath (pathExists fs ["src"]) ++ ["admin"])) with hc | hc
  · rw [step6_collision _ _ hc]
    exact ⟨rfl, rfl⟩
  · rcases h6 with h6 | ⟨hadmin, hdirs⟩
    · rw [pathExists, h6] at hc
      cases hc
    · rw [step6_noop _ _ hc hadmin hdirs]
      exact ⟨rfl, rfl⟩


theorem tinaSetup_scaffolded (fs : FS) (o : Bool) (h : (tinaSetup fs o).ok = true) :
    Scaffolded (pathExists fs ["src"]) (tinaSetup fs o).fs := by
  obtain ⟨ok1, ok2, ok3, ok4, ok5, heq⟩ := tinaSetup_ok_decomp fs o h
  rw [heq]
  rw [heq] at h
  refine ⟨?_, ?_, ?_, ?_, ?_, ?_⟩
  · -- sample post present
    have c1 := (step1_ok _ ok1).2
    exact step6_mono _ _ _ (step5_mono _ _ (step4_mono _ _ _ (step3_mono _ o _ _
      (step2_mono _ _ c1))))
  · -- a provider file present
    rcases (step2_ok _ ok2).2 with c2 | c2
    · exact Or.inl (step6_mono _ _ _ (step5_mono _ _ (step4_mono _ _ _
        (step3_mono _ o _ _ c2))))
    · exact Or.inr (step6_mono _ _ _ (step5_mono _ _ (step4_mono _ _ _
        (step3_mono _ o _ _ c2))))
  · -- an entry point present
    rcases (step3_ok _ o _ ok3).2 with c3 | c3
    · exact Or.inl (step6_mono _ _ _ (step5_mono _ _ (step4_mono _ _ _ c3)))
    · exact Or.inr (step6_mono _ _ _ (step5_mono _ _ (step4_mono _ _ _ c3)))
  · -- demo listing present
    have c4 := (step4_ok _ _ ok4).2
    exact step6_mono _ _ _ (step5_mono _ _ c4)
  · -- manifest written in merged, stable form
    obtain ⟨_, c, pack, hread, hparse, hfs, _⟩ := step5_char _ ok5
    refine ⟨mergedPackFields pack, ?_, mergedPackFields_idem pack⟩
    rw [step6_frame _ _ packagePath (packagePath_not_mem_step6 _), hfs]
    exact FS.lookup_set_self _ _ _
  · -- admin page: collision or written
    rcases Bool.eq_false_or_eq_true (pathExists
        (step5Package (step4Demo (pathExists fs ["src"]) (step3App (pathExists fs ["src"]) o
          (step2Providers (step1Content { fs := fs, log := [], ok := true }))))).fs
        (pagesPath (pathExists fs ["src"]) ++ ["admin"])) with hc | hc
    · exact Or.inl (by
        rw [step6_collision _ _ hc]
        exact hc)
    · obtain ⟨cw1, cw2, _⟩ := step6_write _ _ hc h
      exact Or.inr ⟨cw1, cw2⟩


/-! ## Frame bundles and log propagation -/

theorem step5_log (s : St) : (step5Package s).log = s.log := by
  simp only [step5Package, St.withFS]
  split
  · rfl
  · split
    · rfl
    · split
      · rfl
      · rfl

theorem demoWrite_log (u : Bool) (s : St) : (demoWrite u s).log = s.log := by
  simp only [demoWrite, St.withFS]
  split
  · rfl
  · split
    · rfl
    · split
      · rfl
      · rfl

theorem step4_log_mem (u : Bool) (s : St) (m : LogMsg) (h : m ∈ s.log) :
    m ∈ (step4Demo u s).log := by
  rw [step4Demo, demoLog]
  split
  · rw [St.addLog]
    simp only [List.mem_append, demoWrite_log]
    exact Or.inl h
  · rw [demoWrite_log]
    exact h

theorem step6_log_mem (u : Bool) (s : St) (m : LogMsg) (h : m ∈ s.log) :
    m ∈ (step6Admin u s).log := by
  simp only [step6Admin, St.withFS, St.addLog]
  split
  · simp only [List.mem_append]
    exact Or.inl h
  · split
    · exact h
    · exact h

theorem appPath_frames (u : Bool) :
    appPath u ∉ step1Paths ∧ appPath u ∉ step2Paths ∧ appPath u ∉ step4Paths u ∧
    appPath u ≠ packagePath ∧ appPath u ∉ step6Paths u := by
  cases u <;> exact ⟨by decide, by decide, by decide, by decide, by decide⟩

theorem appPathTS_frames (u : Bool) :
    appPathTS u ∉ step1Paths ∧ appPathTS u ∉ step2Paths ∧ appPathTS u ∉ step4Paths u ∧
    appPathTS u ≠ packagePath ∧ appPathTS u ∉ step6Paths u := by
  cases u <;> exact ⟨by decide, by decide, by decide, by decide, by decide⟩

theorem adminPath_frames (u : Bool) :
    adminPath u ∉ step1Paths ∧ adminPath u ∉ step2Paths ∧ adminPath u ∉ step3Paths u ∧
    adminPath u ∉ step4Paths u ∧ adminPath u ≠ packagePath := by
  cases u <;> exact ⟨by decide, by decide, by decide, by decide, by decide⟩

theorem adminDir_frames (u : Bool) :
    (pagesPath u ++ ["admin"]) ∉ step1Paths ∧ (pagesPath u ++ ["admin"]) ∉ step2Paths ∧
    (pagesPath u ++ ["admin"]) ∉ step3Paths u ∧ (pagesPath u ++ ["admin"]) ∉ step4Paths u ∧
    (pagesPath u ++ ["admin"]) ≠ packagePath := by
  cases u <;> exact ⟨by decide, by decide, by decide, by decide, by decide⟩

theorem provider_frames (u : Bool) :
    TinaProviderPath ∉ step1Paths ∧ TinaProviderPath ∉ step3Paths u ∧
    TinaProviderPath ∉ step4Paths u ∧ TinaProviderPath ≠ packagePath ∧
    TinaProviderPath ∉ step6Paths u ∧
    TinaDynamicProvider ∉ step1Paths ∧ TinaDynamicProvider ∉ step3Paths u ∧
    TinaDynamicProvider ∉ step4Paths u ∧ TinaDynamicProvider ≠ packagePath ∧
    TinaDynamicProvider ∉ step6Paths u := by
  cases u <;> exact ⟨by decide, by decide, by decide, by decide, by decide,
    by decide, by decide, by decide, by decide, by decide⟩

theorem package_frames (u : Bool) :
    packagePath ∉ step1Paths ∧ packagePath ∉ step2Paths ∧ packagePath ∉ step3Paths u ∧
    packagePath ∉ step4Paths u := by
  cases u <;> exact ⟨by decide, by decide, by decide, by decide⟩


/-! ## The claims -/

/-- C3: for every outcome of the telemetry submission in the first pipeline stage,
including a submission failure, and either setting of the disable flag, the stage
resolves and invokes its continuation — a telemetry failure never aborts the
pipeline. -/
theorem claim3_telemetry (noTelemetry : Bool) (outcome : TelemetryOutcome) :
    ∃ r, initTina noTelemetry outcome = some r ∧ r.nextCalled = true :=
  ⟨{ log := [LogMsg.info msgSettingUp], nextCalled := true }, rfl, rfl⟩

/-- C6: for every exit status of the spawned package-installation subprocess
(including an error), the wrapper logs a warning exactly on error, resolves with
the captured output rather than rejecting, and the stage invokes its
continuation. -/
theorem claim6_install (r : ExecResult) :
    (installDeps r).nextCalled = true ∧
    (∀ e, r.error = some e → (installDeps r).log = [LogMsg.warn e]) ∧
    (execShellCommand r).2 = (if r.stdout = "" then r.stderr else r.stdout) := by
  refine ⟨rfl, ?_, rfl⟩
  intro e he
  simp [installDeps, execShellCommand, he]

theorem claim6_install_witness :
    (installDeps execErr).nextCalled = true ∧
    (installDeps execErr).log = [LogMsg.warn "exit status 1"] :=
  ⟨(claim6_install execErr).1, (claim6_install execErr).2.1 "exit status 1" rfl⟩

/-- C5: running the scaffold stage a second time on the filesystem produced by a
successful first run, with the re-triggered overwrite prompt answered no, leaves
every file identical to the state after the first run (and the second run also
reaches its continuation). -/
theorem claim5_idempotent (fs : FS) (o : Bool) (hok : (tinaSetup fs o).ok = true) :
    (tinaSetup (tinaSetup fs o).fs false).fs = (tinaSetup fs o).fs ∧
    (tinaSetup (tinaSetup fs o).fs false).ok = true := by
  have hsc := tinaSetup_scaffolded fs o hok
  refine tinaSetup_noop _ ?_
  rw [tinaSetup_src fs o]
  exact hsc

theorem claim5_idempotent_witness :
    (tinaSetup (tinaSetup fsPlain false).fs false).fs = (tinaSetup fsPlain false).fs ∧
    (tinaSetup (tinaSetup fsPlain false).fs false).ok = true :=
  claim5_idempotent fsPlain false (by decide)


/-- C2 counterexample: on a project with a `src` folder, the scaffold still
creates the sample content file at the project root (`content/posts/...`), not
under `src/` — refuting the claim that every generated path is then rooted under
`src/`.  (The source computes the content and provider paths from the base
directory unconditionally; only the pages-derived paths honor `src`.) -/
theorem claim2_counterexample :
    pathExists fsSrc ["src"] = true ∧
    FS.lookup fsSrc ["content", "posts", "HelloWorld.md"] = none ∧
    FS.lookup (tinaSetup fsSrc true).fs ["content", "posts", "HelloWorld.md"] =
      some (Entry.file blogPost) ∧
    (["content", "posts", "HelloWorld.md"] : Path).head? ≠ some "src" := by
  refine ⟨rfl, rfl, by decide, by decide⟩

/-- C2 (amended): every path the scaffold stage changes lies in the write set of
the detected layout; when no `src` folder is present every changed path is
outside `src/`; when a `src` folder is present the pages-derived outputs are
rooted under `src/` while the sample content, the provider components and the
manifest remain at the project root. -/
theorem claim2_paths (fs : FS) (o : Bool) (q : Path)
    (hch : FS.lookup (tinaSetup fs o).fs q ≠ FS.lookup fs q) :
    q ∈ writePaths (pathExists fs ["src"]) ∧
    (pathExists fs ["src"] = false → q.head? ≠ some "src") ∧
    (pathExists fs ["src"] = true → q.head? = some "src" ∨ q ∈ rootWritePaths) := by
  have hq : q ∈ writePaths (pathExists fs ["src"]) := by
    by_contra hq
    exact hch (tinaSetup_frame fs o q hq)
  refine ⟨hq, ?_, ?_⟩
  · intro hu
    rw [hu] at hq
    have hall : ∀ p ∈ writePaths false, p.head? ≠ some "src" := by decide
    exact hall q hq
  · intro hu
    rw [hu] at hq
    have hall : ∀ p ∈ writePaths true, p.head? = some "src" ∨ p ∈ rootWritePaths := by
      decide
    exact hall q hq

theorem claim2_paths_witness :
    (["content", "posts", "HelloWorld.md"] : Path) ∈ writePaths (pathExists fsSrc ["src"]) ∧
    (pathExists fsSrc ["src"] = true →
      (["content", "posts", "HelloWorld.md"] : Path).head? = some "src" ∨
      (["content", "posts", "HelloWorld.md"] : Path) ∈ rootWritePaths) := by
  have h := claim2_paths fsSrc true ["content", "posts", "HelloWorld.md"] (by decide)
  exact ⟨h.1, h.2.2⟩


/-- C7: the manifest update parses `package.json` as structured data, merges the
fixed injected script entries into its `scripts` object — overriding the injected
keys, preserving every other pre-existing key of the manifest and of the scripts
object — and rewrites the file as the 2-space-indented serialization of the
merged structure. -/
theorem claim7_manifest (fs : FS) (o : Bool) (c : String)
    (fields : List (String × Json))
    (hok : (tinaSetup fs o).ok = true)
    (hpkg : FS.lookup fs packagePath = some (Entry.file c))
    (hparse : Json.parse c = some (Json.obj fields)) :
    FS.lookup (tinaSetup fs o).fs packagePath =
      some (Entry.file (stringifyJson (Json.obj (setField fields "scripts"
        (Json.obj (extendNextScripts (oldScriptsOf fields))))))) ∧
    (∀ k, k ≠ "scripts" →
      lookupField (setField fields "scripts"
        (Json.obj (extendNextScripts (oldScriptsOf fields)))) k = lookupField fields k) ∧
    (∀ k v, lookupField (oldScriptsOf fields) k = some v →
      k ≠ "dev" → k ≠ "build" → k ≠ "generate" →
      lookupField (extendNextScripts (oldScriptsOf fields)) k = some v) ∧
    (∀ kv ∈ injectedScripts,
      lookupField (extendNextScripts (oldScriptsOf fields)) kv.1 = some (Json.str kv.2)) := by
  obtain ⟨ok1, ok2, ok3, ok4, ok5, heq⟩ := tinaSetup_ok_decomp fs o hok
  refine ⟨?_, ?_, ?_, ?_⟩
  · obtain ⟨pf1, pf2, pf3, pf4⟩ := package_frames (pathExists fs ["src"])
    have hlook : FS.lookup (step4Demo (pathExists fs ["src"])
        (step3App (pathExists fs ["src"]) o (step2Providers
          (step1Content { fs := fs, log := [], ok := true })))).fs packagePath =
        some (Entry.file c) := by
      rw [step4_frame _ _ _ pf4, step3_frame _ o _ _ pf3, step2_frame _ _ pf2,
        step1_frame _ _ pf1]
      exact hpkg
    obtain ⟨_, c2, pack, hread2, hparse2, hfs5, _⟩ := step5_char _ ok5
    have hc2 : c2 = c := by
      rw [readFile, hlook] at hread2
      exact (Option.some.injEq _ _).mp hread2.symm
    subst hc2
    have hpk : pack = Json.obj fields := by
      rw [hparse] at hparse2
      exact (Option.some.injEq _ _).mp hparse2.symm
    subst hpk
    rw [heq, step6_frame _ _ packagePath (packagePath_not_mem_step6 _), hfs5]
    rw [FS.lookup_set_self]
    rfl
  · intro k hk
    exact lookupField_setField_ne fields "scripts" k _ hk
  · intro k v hv h1 h2 h3
    rw [lookupField_extendNextScripts_ne _ k h1 h2 h3]
    exact hv
  · exact lookupField_extendNextScripts_self _

set_option maxRecDepth 8192 in
theorem claim7_manifest_witness :
    FS.lookup (tinaSetup fsPlain false).fs packagePath =
      some (Entry.file (stringifyJson (Json.obj (setField
        [("scripts", Json.obj [("start", Json.str "x")])] "scripts"
        (Json.obj (extendNextScripts
          (oldScriptsOf [("scripts", Json.obj [("start", Json.str "x")])]))))))) ∧
    lookupField (extendNextScripts
        (oldScriptsOf [("scripts", Json.obj [("start", Json.str "x")])])) "start" =
      some (Json.str "x") ∧
    stringifyJson (Json.obj (setField [("scripts", Json.obj [("start", Json.str "x")])]
        "scripts" (Json.obj (extendNextScripts
          (oldScriptsOf [("scripts", Json.obj [("start", Json.str "x")])]))))) =
      "\x7b\n  \x22scripts\x22: \x7b\n    \x22start\x22: \x22x\x22,\n    \x22dev\x22: \x22tinacms server:start -c next dev\x22,\n    \x22build\x22: \x22tinacms server:start -c next build\x22,\n    \x22generate\x22: \x22tinacms generate\x22\n  \x7d\n\x7d" := by
  have h := claim7_manifest fsPlain false pkgStart
    [("scripts", Json.obj [("start", Json.str "x")])] (by decide) rfl rfl
  exact ⟨h.1, h.2.2.1 "start" (Json.str "x") rfl (by decide) (by decide) (by decide),
    by decide⟩


/-- C10: if at least one of the two provider files already exists (in particular
when exactly one does), the scaffold writes neither, so a missing provider
variant is never created; when both are absent (and the stage completes), both
are written. -/
theorem claim10_providers (fs : FS) (o : Bool) :
    ((FS.lookup fs TinaProviderPath).isSome = true ∨
        (FS.lookup fs TinaDynamicProvider).isSome = true →
      FS.lookup (tinaSetup fs o).fs TinaProviderPath = FS.lookup fs TinaProviderPath ∧
      FS.lookup (tinaSetup fs o).fs TinaDynamicProvider =
        FS.lookup fs TinaDynamicProvider) ∧
    (FS.lookup fs TinaProviderPath = none → FS.lookup fs TinaDynamicProvider = none →
      (tinaSetup fs o).ok = true →
      FS.lookup (tinaSetup fs o).fs TinaProviderPath = some (Entry.file TinaProvider) ∧
      FS.lookup (tinaSetup fs o).fs TinaDynamicProvider =
        some (Entry.file TinaProviderDynamic)) := by
  obtain ⟨pv1, pv3, pv4, pv5, pv6, pd1, pd3, pd4, pd5, pd6⟩ :=
    provider_frames (pathExists fs ["src"])
  constructor
  · intro hex
    have f1P : FS.lookup (step1Content { fs := fs, log := [], ok := true }).fs
        TinaProviderPath = FS.lookup fs TinaProviderPath := step1_frame _ _ pv1
    have f1D : FS.lookup (step1Content { fs := fs, log := [], ok := true }).fs
        TinaDynamicProvider = FS.lookup fs TinaDynamicProvider := step1_frame _ _ pd1
    have hA : andThen (step1Content { fs := fs, log := [], ok := true })
        step2Providers = step1Content { fs := fs, log := [], ok := true } := by
      rw [andThen]
      split
      · refine step2_skip _ ?_
        rcases hex with h | h
        · exact Or.inl (by rw [pathExists, f1P]; exact h)
        · exact Or.inr (by rw [pathExists, f1D]; exact h)
      · rfl
    rw [tinaSetup_eq, hA]
    constructor
    · rw [andThen_frame _ _ _ (fun t => step6_frame _ t _ pv6),
        andThen_frame _ _ _ (fun t => step5_frame t _ pv5),
        andThen_frame _ _ _ (fun t => step4_frame _ t _ pv4),
        andThen_frame _ _ _ (fun t => step3_frame _ o t _ pv3)]
      exact f1P
    · rw [andThen_frame _ _ _ (fun t => step6_frame _ t _ pd6),
        andThen_frame _ _ _ (fun t => step5_frame t _ pd5),
        andThen_frame _ _ _ (fun t => step4_frame _ t _ pd4),
        andThen_frame _ _ _ (fun t => step3_frame _ o t _ pd3)]
      exact f1D
  · intro h1 h2 hok
    obtain ⟨ok1, ok2, ok3, ok4, ok5, heq⟩ := tinaSetup_ok_decomp fs o hok
    have f1P : FS.lookup (step1Content { fs := fs, log := [], ok := true }).fs
        TinaProviderPath = none := by rw [step1_frame _ _ pv1]; exact h1
    have f1D : FS.lookup (step1Content { fs := fs, log := [], ok := true }).fs
        TinaDynamicProvider = none := by rw [step1_frame _ _ pd1]; exact h2
    have hw := step2_write _ (by rw [pathExists, f1P]; rfl)
      (by rw [pathExists, f1D]; rfl) ok2
    rw [heq]
    constructor
    · rw [step6_frame _ _ _ pv6, step5_frame _ _ pv5, step4_frame _ _ _ pv4,
        step3_frame _ o _ _ pv3]
      exact hw.1
    · rw [step6_frame _ _ _ pd6, step5_frame _ _ pd5, step4_frame _ _ _ pd4,
        step3_frame _ o _ _ pd3]
      exact hw.2

set_option maxRecDepth 8192 in
theorem claim10_providers_witness :
    (FS.lookup (tinaSetup fsOneProvider false).fs TinaProviderPath =
        FS.lookup fsOneProvider TinaProviderPath ∧
      FS.lookup (tinaSetup fsOneProvider false).fs TinaDynamicProvider =
        FS.lookup fsOneProvider TinaDynamicProvider) ∧
    (FS.lookup (tinaSetup fsPlain false).fs TinaProviderPath =
        some (Entry.file TinaProvider) ∧
      FS.lookup (tinaSetup fsPlain false).fs TinaDynamicProvider =
        some (Entry.file TinaProviderDynamic)) :=
  ⟨(claim10_providers fsOneProvider false).1 (Or.inl (by decide)),
    (claim10_providers fsPlain false).2 rfl rfl (by decide)⟩


/-- C1: when a directory named `admin` exists under the pages directory and the
pipeline reaches the admin step, the stage emits the warning, leaves
`pages/admin.js` untouched, and still reaches its continuation reporting
success; when no such path exists and a file `admin.js` is already present, the
generated admin page overwrites it unconditionally. -/
theorem claim1_admin_guard (fs : FS) (o : Bool) :
    (FS.lookup fs (pagesPath (pathExists fs ["src"]) ++ ["admin"]) = some Entry.dir →
      (step5Package (step4Demo (pathExists fs ["src"]) (step3App (pathExists fs ["src"]) o
        (step2Providers (step1Content { fs := fs, log := [], ok := true }))))).ok = true →
      (tinaSetup fs o).ok = true ∧
      LogMsg.warn msgAdminExists ∈ (tinaSetup fs o).log ∧
      FS.lookup (tinaSetup fs o).fs (adminPath (pathExists fs ["src"])) =
        FS.lookup fs (adminPath (pathExists fs ["src"]))) ∧
    (∀ c, FS.lookup fs (pagesPath (pathExists fs ["src"]) ++ ["admin"]) = none →
      FS.lookup fs (adminPath (pathExists fs ["src"])) = some (Entry.file c) →
      (tinaSetup fs o).ok = true →
      FS.lookup (tinaSetup fs o).fs (adminPath (pathExists fs ["src"])) =
        some (Entry.file adminPage)) := by
  obtain ⟨ap1, ap2, ap3, ap4, ap5⟩ := adminPath_frames (pathExists fs ["src"])
  obtain ⟨ad1, ad2, ad3, ad4, ad5⟩ := adminDir_frames (pathExists fs ["src"])
  constructor
  · intro hdir hs5ok
    have s4ok := (step5_char _ hs5ok).1
    have s3ok := (step4_ok _ _ s4ok).1
    have s2ok := (step3_ok _ o _ s3ok).1
    have s1ok := (step2_ok _ s2ok).1
    have heq : tinaSetup fs o = step6Admin (pathExists fs ["src"])
        (step5Package (step4Demo (pathExists fs ["src"]) (step3App (pathExists fs ["src"]) o
          (step2Providers (step1Content { fs := fs, log := [], ok := true }))))) := by
      rw [tinaSetup_eq,
        andThen_of_ok (step1Content { fs := fs, log := [], ok := true })
          step2Providers s1ok,
        andThen_of_ok (step2Providers (step1Content { fs := fs, log := [], ok := true }))
          (step3App (pathExists fs ["src"]) o) s2ok,
        andThen_of_ok (step3App (pathExists fs ["src"]) o (step2Providers (step1Content
          { fs := fs, log := [], ok := true }))) (step4Demo (pathExists fs ["src"])) s3ok,
        andThen_of_ok (step4Demo (pathExists fs ["src"]) (step3App (pathExists fs ["src"]) o
          (step2Providers (step1Content { fs := fs, log := [], ok := true }))))
          step5Package s4ok,
        andThen_of_ok (step5Package (step4Demo (pathExists fs ["src"])
          (step3App (pathExists fs ["src"]) o (step2Providers (step1Content
            { fs := fs, log := [], ok := true }))))) (step6Admin (pathExists fs ["src"]))
          hs5ok]
    have hD : pathExists (step5Package (step4Demo (pathExists fs ["src"])
        (step3App (pathExists fs ["src"]) o (step2Providers (step1Content
          { fs := fs, log := [], ok := true }))))).fs
        (pagesPath (pathExists fs ["src"]) ++ ["admin"]) = true := by
      rw [pathExists, step5_frame _ _ ad5, step4_frame _ _ _ ad4, step3_frame _ o _ _ ad3,
        step2_frame _ _ ad2, step1_frame _ _ ad1, hdir]
      rfl
    rw [heq, step6_collision _ _ hD]
    refine ⟨hs5ok, ?_, ?_⟩
    · rw [St.addLog]
      simp
    · show FS.lookup (step5Package (step4Demo (pathExists fs ["src"])
        (step3App (pathExists fs ["src"]) o (step2Providers (step1Content
          { fs := fs, log := [], ok := true }))))).fs (adminPath (pathExists fs ["src"])) = _
      rw [step5_frame _ _ ap5, step4_frame _ _ _ ap4, step3_frame _ o _ _ ap3,
        step2_frame _ _ ap2, step1_frame _ _ ap1]
  · intro c hdir hfile hok
    obtain ⟨ok1, ok2, ok3, ok4, ok5, heq⟩ := tinaSetup_ok_decomp fs o hok
    have hD : pathExists (step5Package (step4Demo (pathExists fs ["src"])
        (step3App (pathExists fs ["src"]) o (step2Providers (step1Content
          { fs := fs, log := [], ok := true }))))).fs
        (pagesPath (pathExists fs ["src"]) ++ ["admin"]) = false := by
      rw [pathExists, step5_frame _ _ ad5, step4_frame _ _ _ ad4, step3_frame _ o _ _ ad3,
        step2_frame _ _ ad2, step1_frame _ _ ad1, hdir]
      rfl
    rw [heq] at hok ⊢
    exact (step6_write _ _ hD hok).1

set_option maxRecDepth 8192 in
theorem claim1_admin_guard_witness :
    ((tinaSetup fsAdminDir false).ok = true ∧
      LogMsg.warn msgAdminExists ∈ (tinaSetup fsAdminDir false).log ∧
      FS.lookup (tinaSetup fsAdminDir false).fs
          (adminPath (pathExists fsAdminDir ["src"])) =
        FS.lookup fsAdminDir (adminPath (pathExists fsAdminDir ["src"]))) ∧
    FS.lookup (tinaSetup fsAdminFile false).fs
        (adminPath (pathExists fsAdminFile ["src"])) = some (Entry.file adminPage) :=
  ⟨(claim1_admin_guard fsAdminDir false).1 rfl (by decide),
    (claim1_admin_guard fsAdminFile false).2 "custom admin page" rfl rfl (by decide)⟩


/-- C4: when an entry-point file exists and the overwrite prompt is confirmed,
the regenerated entry point consists of exactly the lines of the old contents
matching the style-import pattern, in their original order, joined by newlines
and followed by the generated body, and it is written at the path whose
extension matches the pre-existing file (`.js` when `_app.js` existed, `.tsx`
when only `_app.tsx` existed). -/
theorem claim4_css_imports (fs : FS) (c : String)
    (hok : (tinaSetup fs true).ok = true) :
    (FS.lookup fs (appPath (pathExists fs ["src"])) = some (Entry.file c) →
      FS.lookup (tinaSetup fs true).fs (appPath (pathExists fs ["src"])) =
        some (Entry.file (AppJsContent (pathExists fs ["src"])
          (String.mk (joinNl ((splitOnNl c.data).filter lineMatchesCss)))))) ∧
    (FS.lookup fs (appPath (pathExists fs ["src"])) = none →
      FS.lookup fs (appPathTS (pathExists fs ["src"])) = some (Entry.file c) →
      FS.lookup (tinaSetup fs true).fs (appPathTS (pathExists fs ["src"])) =
        some (Entry.file (AppJsContent (pathExists fs ["src"])
          (String.mk (joinNl ((splitOnNl c.data).filter lineMatchesCss)))))) := by
  obtain ⟨ok1, ok2, ok3, ok4, ok5, heq⟩ := tinaSetup_ok_decomp fs true hok
  obtain ⟨ap1, ap2, ap4, ap5, ap6⟩ := appPath_frames (pathExists fs ["src"])
  obtain ⟨at1, at2, at4, at5, at6⟩ := appPathTS_frames (pathExists fs ["src"])
  constructor
  · intro hjs
    have h2 : FS.lookup (step2Providers (step1Content
        { fs := fs, log := [], ok := true })).fs (appPath (pathExists fs ["src"])) =
        some (Entry.file c) := by
      rw [step2_frame _ _ ap2, step1_frame _ _ ap1]
      exact hjs
    have h3 := step3_overwrite_js (pathExists fs ["src"]) _ c h2 ok3
    rw [heq, step6_frame _ _ _ ap6, step5_frame _ _ ap5, step4_frame _ _ _ ap4]
    exact h3.1
  · intro hjs hts
    have h2js : FS.lookup (step2Providers (step1Content
        { fs := fs, log := [], ok := true })).fs (appPath (pathExists fs ["src"])) =
        none := by
      rw [step2_frame _ _ ap2, step1_frame _ _ ap1]
      exact hjs
    have h2ts : FS.lookup (step2Providers (step1Content
        { fs := fs, log := [], ok := true })).fs (appPathTS (pathExists fs ["src"])) =
        some (Entry.file c) := by
      rw [step2_frame _ _ at2, step1_frame _ _ at1]
      exact hts
    have h3 := step3_overwrite_tsx (pathExists fs ["src"]) _ c h2js h2ts ok3
    rw [heq, step6_frame _ _ _ at6, step5_frame _ _ at5, step4_frame _ _ _ at4]
    exact h3

set_option maxRecDepth 8192 in
theorem claim4_css_imports_witness :
    FS.lookup (tinaSetup fsApp true).fs (appPath (pathExists fsApp ["src"])) =
      some (Entry.file (AppJsContent (pathExists fsApp ["src"])
        (String.mk (joinNl ((splitOnNl appOldSample.data).filter lineMatchesCss))))) ∧
    FS.lookup (tinaSetup fsAppTS true).fs (appPathTS (pathExists fsAppTS ["src"])) =
      some (Entry.file (AppJsContent (pathExists fsAppTS ["src"])
        (String.mk (joinNl ((splitOnNl appOldSample.data).filter lineMatchesCss))))) :=
  ⟨(claim4_css_imports fsApp appOldSample (by decide)).1 rfl,
    (claim4_css_imports fsAppTS appOldSample (by decide)).2 rfl rfl⟩

/-- C8: when an entry point exists and the overwrite prompt is declined, both
entry-point paths keep their previous entries unchanged and the
manual-integration instructions are printed. -/
theorem claim8_decline (fs : FS)
    (hok : (tinaSetup fs false).ok = true)
    (hex : (FS.lookup fs (appPath (pathExists fs ["src"]))).isSome = true ∨
      (FS.lookup fs (appPathTS (pathExists fs ["src"]))).isSome = true) :
    FS.lookup (tinaSetup fs false).fs (appPath (pathExists fs ["src"])) =
      FS.lookup fs (appPath (pathExists fs ["src"])) ∧
    FS.lookup (tinaSetup fs false).fs (appPathTS (pathExists fs ["src"])) =
      FS.lookup fs (appPathTS (pathExists fs ["src"])) ∧
    LogMsg.danger (msgManual (pathExists fs ["src"])) ∈ (tinaSetup fs false).log := by
  obtain ⟨ok1, ok2, ok3, ok4, ok5, heq⟩ := tinaSetup_ok_decomp fs false hok
  obtain ⟨ap1, ap2, ap4, ap5, ap6⟩ := appPath_frames (pathExists fs ["src"])
  obtain ⟨at1, at2, at4, at5, at6⟩ := appPathTS_frames (pathExists fs ["src"])
  have hex2 : pathExists (step2Providers (step1Content
      { fs := fs, log := [], ok := true })).fs (appPath (pathExists fs ["src"])) = true ∨
      pathExists (step2Providers (step1Content
        { fs := fs, log := [], ok := true })).fs (appPathTS (pathExists fs ["src"])) =
        true := by
    rcases hex with h | h
    · exact Or.inl (by rw [pathExists, step2_frame _ _ ap2, step1_frame _ _ ap1]; exact h)
    · exact Or.inr (by rw [pathExists, step2_frame _ _ at2, step1_frame _ _ at1]; exact h)
  have e3 := step3_decline (pathExists fs ["src"]) _ hex2
  refine ⟨?_, ?_, ?_⟩
  · rw [heq, step6_frame _ _ _ ap6, step5_frame _ _ ap5, step4_frame _ _ _ ap4, e3,
      St.addLog]
    show FS.lookup (step2Providers (step1Content
      { fs := fs, log := [], ok := true })).fs _ = _
    rw [step2_frame _ _ ap2, step1_frame _ _ ap1]
  · rw [heq, step6_frame _ _ _ at6, step5_frame _ _ at5, step4_frame _ _ _ at4, e3,
      St.addLog]
    show FS.lookup (step2Providers (step1Content
      { fs := fs, log := [], ok := true })).fs _ = _
    rw [step2_frame _ _ at2, step1_frame _ _ at1]
  · rw [heq]
    refine step6_log_mem _ _ _ ?_
    rw [step5_log]
    refine step4_log_mem _ _ _ ?_
    rw [e3, St.addLog]
    simp

set_option maxRecDepth 8192 in
theorem claim8_decline_witness :
    FS.lookup (tinaSetup fsApp false).fs (appPath (pathExists fsApp ["src"])) =
      FS.lookup fsApp (appPath (pathExists fsApp ["src"])) ∧
    FS.lookup (tinaSetup fsApp false).fs (appPathTS (pathExists fsApp ["src"])) =
      FS.lookup fsApp (appPathTS (pathExists fsApp ["src"])) ∧
    LogMsg.danger (msgManual (pathExists fsApp ["src"])) ∈ (tinaSetup fsApp false).log :=
  claim8_decline fsApp (by decide) (Or.inl (by decide))

/-- C9: when both `_app.js` and `_app.tsx` exist and the overwrite prompt is
confirmed, the detected extension is `.js`, so `_app.js` is the file read and
regenerated while the coexisting `_app.tsx` keeps its contents unchanged. -/
theorem claim9_both_apps (fs : FS) (cjs cts : String)
    (hok : (tinaSetup fs true).ok = true)
    (hjs : FS.lookup fs (appPath (pathExists fs ["src"])) = some (Entry.file cjs))
    (hts : FS.lookup fs (appPathTS (pathExists fs ["src"])) = some (Entry.file cts)) :
    appExtensionOf fs (pathExists fs ["src"]) = ".js" ∧
    FS.lookup (tinaSetup fs true).fs (appPathTS (pathExists fs ["src"])) =
      some (Entry.file cts) ∧
    FS.lookup (tinaSetup fs true).fs (appPath (pathExists fs ["src"])) =
      some (Entry.file (AppJsContent (pathExists fs ["src"]) (cssImports cjs))) := by
  obtain ⟨ok1, ok2, ok3, ok4, ok5, heq⟩ := tinaSetup_ok_decomp fs true hok
  obtain ⟨ap1, ap2, ap4, ap5, ap6⟩ := appPath_frames (pathExists fs ["src"])
  obtain ⟨at1, at2, at4, at5, at6⟩ := appPathTS_frames (pathExists fs ["src"])
  have h2 : FS.lookup (step2Providers (step1Content
      { fs := fs, log := [], ok := true })).fs (appPath (pathExists fs ["src"])) =
      some (Entry.file cjs) := by
    rw [step2_frame _ _ ap2, step1_frame _ _ ap1]
    exact hjs
  have h2ts : FS.lookup (step2Providers (step1Content
      { fs := fs, log := [], ok := true })).fs (appPathTS (pathExists fs ["src"])) =
      some (Entry.file cts) := by
    rw [step2_frame _ _ at2, step1_frame _ _ at1]
    exact hts
  have h3 := step3_overwrite_js (pathExists fs ["src"]) _ cjs h2 ok3
  have hpe : pathExists fs (appPath (pathExists fs ["src"])) = true := by
    show (FS.lookup fs (appPath (pathExists fs ["src"]))).isSome = true
    rw [hjs]
    rfl
  refine ⟨by rw [appExtensionOf, hpe]; rfl, ?_, ?_⟩
  · rw [heq, step6_frame _ _ _ at6, step5_frame _ _ at5, step4_frame _ _ _ at4, h3.2]
    exact h2ts
  · rw [heq, step6_frame _ _ _ ap6, step5_frame _ _ ap5, step4_frame _ _ _ ap4]
    exact h3.1

set_option maxRecDepth 8192 in
theorem claim9_both_apps_witness :
    appExtensionOf fsBothApps (pathExists fsBothApps ["src"]) = ".js" ∧
    FS.lookup (tinaSetup fsBothApps true).fs (appPathTS (pathExists fsBothApps ["src"])) =
      some (Entry.file "tsx entry point") ∧
    FS.lookup (tinaSetup fsBothApps true).fs (appPath (pathExists fsBothApps ["src"])) =
      some (Entry.file (AppJsContent (pathExists fsBothApps ["src"])
        (cssImports appOldSample))) :=
  claim9_both_apps fsBothApps appOldSample "tsx entry point" (by decide) rfl rfl

end TinaInit
